import Mathlib

/-!
Verification development for the calibre RidiBooks metadata-source plugin
(`__init__.py` / `worker.py`).  Python strings are embedded as `List Char`
(Python indexing/slicing is over code points, which coincides with
`List Char`), Python floats as `ℚ`, and Python exceptions as `Except Unit`
or `Option`.  Each definition carries a note pointing to the source
function it embeds.
-/

set_option autoImplicit false

abbrev Str := List Char

/-- Python whitespace (ASCII part), as used by `str.strip()`. -/
def isPySpace (c : Char) : Bool :=
  c = ' ' || c = '\t' || c = '\n' || c = '\x0d' || c = '\x0b' || c = '\x0c'

/-- Python `str.strip()`: drop leading and trailing whitespace. -/
def pyStrip (s : Str) : Str :=
  ((s.dropWhile isPySpace).reverse.dropWhile isPySpace).reverse

/-- Python `str.replace(' ', '')`: remove every space character. -/
def stripSpaces (s : Str) : Str := s.filter (fun c => c ≠ ' ')

/-- Python `''.join(tokens)`. -/
def joinStrs (l : List Str) : Str := l.flatten

/-- Python `str.find(c)` for a single-character needle: first index or -1. -/
def pyFindI (c : Char) (s : Str) : Int :=
  match s.findIdx? (fun x => x = c) with
  | none => -1
  | some i => (i : Int)

/-- Python `str.rpartition(sep)` for a single-character separator.
Returns `(before, mid, after)` where `mid` is `[sep]` when the separator
occurs and `[]` otherwise; when it does not occur the original string is
returned in the *third* component, mirroring Python. -/
def pyRpartition (sep : Char) (s : Str) : Str × Str × Str :=
  match s.reverse.span (fun x => x ≠ sep) with
  | (revAfter, []) => ([], [], revAfter.reverse)
  | (revAfter, _ :: revBefore) => (revBefore.reverse, [sep], revAfter.reverse)

/-- Python `str.partition(sep)` for a single-character separator
(first occurrence). -/
def pyPartitionF (sep : Char) (s : Str) : Str × Str × Str :=
  match s.span (fun x => x ≠ sep) with
  | (before, []) => (before, [], [])
  | (before, _ :: after) => (before, [sep], after)

def digitsToNat (s : Str) : Nat :=
  s.foldl (fun acc c => acc * 10 + (c.toNat - '0'.toNat)) 0

/-- Python `int(s)` on a plain decimal string: optional sign, one or more
ASCII digits, surrounding whitespace allowed; anything else raises
(`none`). -/
def pyInt (s : Str) : Option Int :=
  let t := pyStrip s
  let (sign, t) : Int × Str :=
    match t with
    | '+' :: r => (1, r)
    | '-' :: r => (-1, r)
    | r => (1, r)
  if t ≠ [] ∧ t.all (·.isDigit) then some (sign * digitsToNat t) else none

/-- Python `float(s)` on the decimal forms `[±]digits[.digits][e[±]digits]`
and `[±].digits[e[±]digits]`, with surrounding whitespace; `none` models a
`ValueError`.  The value is returned as an exact numerator/denominator pair
(floats are idealised by exact rationals throughout this development).  The
special values `inf`/`nan` (no rational counterpart) are treated as errors;
no caller in this development depends on them. -/
def pyFloatND (s : Str) : Option (Int × Nat) :=
  let t := pyStrip s
  let (sign, t) : Int × Str :=
    match t with
    | '+' :: r => (1, r)
    | '-' :: r => (-1, r)
    | r => (1, r)
  let ip := t.takeWhile (·.isDigit)
  let t1 := t.dropWhile (·.isDigit)
  let (fp, t2) : Str × Str :=
    match t1 with
    | '.' :: r => (r.takeWhile (·.isDigit), r.dropWhile (·.isDigit))
    | _ => ([], t1)
  if ip = [] ∧ fp = [] then none
  else
    let base : Int := (digitsToNat ip * 10 ^ fp.length + digitsToNat fp : Nat)
    match t2 with
    | [] => some (sign * base, 10 ^ fp.length)
    | e :: r =>
      if e = 'e' ∨ e = 'E' then
        let (esign, r1) : Int × Str :=
          match r with
          | '+' :: r2 => (1, r2)
          | '-' :: r2 => (-1, r2)
          | r2 => (1, r2)
        if r1 ≠ [] ∧ r1.all (·.isDigit) then
          let ex : Int := esign * (digitsToNat r1 : Int)
          if 0 ≤ ex then some (sign * base * 10 ^ ex.toNat, 10 ^ fp.length)
          else some (sign * base, 10 ^ fp.length * 10 ^ (-ex).toNat)
        else none
      else none

/-- Python `float(s)` as a rational number (see `pyFloatND`). -/
def pyFloat (s : Str) : Option ℚ :=
  (pyFloatND s).map (fun p => (p.1 : ℚ) / (p.2 : ℚ))

instance {ε α : Type} [DecidableEq ε] [DecidableEq α] : DecidableEq (Except ε α)
  | .ok a, .ok b =>
    if h : a = b then .isTrue (by rw [h]) else .isFalse (by simp [h])
  | .error a, .error b =>
    if h : a = b then .isTrue (by rw [h]) else .isFalse (by simp [h])
  | .ok _, .error _ => .isFalse (by simp)
  | .error _, .ok _ => .isFalse (by simp)

/-- Truthiness of a Python string. -/
def truthyS (s : Str) : Bool := s ≠ []

/-- Truthiness of an optional Python string (`None` and `''` are falsy). -/
def truthyOS (s : Option Str) : Bool :=
  match s with
  | none => false
  | some t => truthyS t

/-! ## difflib.SequenceMatcher (as used by `RidiBooks._parse_search_results`)

The matcher calls `difflib.SequenceMatcher(None, a, b).ratio()` (isjunk is
`None`, so the junk set is empty; `autojunk` keeps its default `True`).
We embed `__chain_b` (the `b2j` index with autojunk), `find_longest_match`
(with the two junk-extension loops omitted, as the junk set is empty), and
the total number of matched elements underlying `ratio`.  The Python
queue-plus-sort formulation of `get_matching_blocks` is embedded as the
equivalent recursion on subranges: the sort, the adjacent-block merge and
the terminating sentinel do not change the *sum* of the block sizes, which
is all `ratio` consumes. -/

/-- Ascending list of the indices at which `c` occurs in `b`
(Python `b2j` before junk removal). -/
def occIdx (b : Str) (c : Char) : List Nat :=
  (b.enum.filter (fun p => p.2 = c)).map (fun p => p.1)

/-- Python `SequenceMatcher.__chain_b` with `isjunk = None` and the default
`autojunk = True`: elements of `b` that occur more than `len(b)//100 + 1`
times are dropped from the index when `len(b) >= 200`. -/
def b2j (b : Str) (c : Char) : List Nat :=
  let l := occIdx b c
  if 200 ≤ b.length ∧ b.length / 100 + 1 < l.length then [] else l

/-- The running `(besti, bestj, bestsize)` state of `find_longest_match`. -/
structure FlmSt where
  besti : Nat
  bestj : Nat
  bestsize : Nat
deriving DecidableEq, Repr

/-- Functional update used to model the `newj2len` dict. -/
def updFn (f : Nat → Nat) (k v : Nat) : Nat → Nat :=
  fun x => if x = k then v else f x

/-- `k = j2len.get(j-1, 0) + 1` (the candidate match length ending at
`(i, j)`).  Python's `j2len.get(j-1, 0)` with `j = 0` looks up key `-1`
(always absent), hence the explicit `j = 0` guard. -/
def flmK (j2old : Nat → Nat) (j : Nat) : Nat :=
  (if j = 0 then 0 else j2old (j - 1)) + 1

/-- The body executed for one index `j` of the inner loop: store
`newj2len[j] = k` and update the best triple when `k > bestsize`. -/
def flmStep (i : Nat) (j2old : Nat → Nat) (j : Nat) (nw : Nat → Nat) (st : FlmSt) :
    (Nat → Nat) × FlmSt :=
  (updFn nw j (flmK j2old j),
    if st.bestsize < flmK j2old j then
      ⟨i + 1 - flmK j2old j, j + 1 - flmK j2old j, flmK j2old j⟩
    else st)

/-- Inner loop of `find_longest_match` over the index list `b2j[a[i]]`:
skips `j < blo`, breaks at `j >= bhi` (the index lists are ascending), and
performs `flmStep` otherwise.  Python's `i-k+1` / `j-k+1` are written
`i+1-k` / `j+1-k`, identical over ℤ and correct under truncated
subtraction since `k ≤ i+1` and `k ≤ j+1` whenever the initial `j2old`
comes from the previous row (see `flmInner_ok`). -/
def flmInner (i blo bhi : Nat) (j2old : Nat → Nat) :
    List Nat → (Nat → Nat) → FlmSt → (Nat → Nat) × FlmSt
  | [], nw, st => (nw, st)
  | j :: js, nw, st =>
    if j < blo then flmInner i blo bhi j2old js nw st
    else if bhi ≤ j then (nw, st)
    else
      flmInner i blo bhi j2old js (flmStep i j2old j nw st).1 (flmStep i j2old j nw st).2

/-- Outer loop of `find_longest_match` over `i in range(alo, ahi)`;
`steps = ahi - alo` counts the remaining rows.  Each row starts from a
fresh `newj2len = {}` and reads the previous row through `j2old`.  The
`getD` default is never consulted for in-range calls (`i < a.length`). -/
def flmRows (a : Str) (bj : Char → List Nat) (blo bhi : Nat) :
    Nat → Nat → (Nat → Nat) → FlmSt → FlmSt
  | 0, _, _, st => st
  | steps + 1, i, j2, st =>
    let p := flmInner i blo bhi j2 (bj (a.getD i ' ')) (fun _ => 0) st
    flmRows a bj blo bhi steps (i + 1) p.1 p.2

/-- First extension loop of `find_longest_match`: grow the match leftward
while the adjacent elements are equal (the junk guard is vacuous since the
junk set is empty).  The fuel is instantiated with `besti`, which decreases
in lockstep with the loop variable, so fuel exhaustion coincides with
`besti = 0`, where the guard is false anyway. -/
def extLeft (a b : Str) (alo blo : Nat) : Nat → FlmSt → FlmSt
  | 0, st => st
  | f + 1, st =>
    if alo < st.besti ∧ blo < st.bestj ∧
        a.getD (st.besti - 1) ' ' = b.getD (st.bestj - 1) ' ' then
      extLeft a b alo blo f ⟨st.besti - 1, st.bestj - 1, st.bestsize + 1⟩
    else st

/-- Second extension loop of `find_longest_match`: grow the match rightward
while the adjacent elements are equal.  The fuel is instantiated with
`ahi - (besti + bestsize)`, which decreases in lockstep with the loop, so
exhaustion coincides with the guard being false. -/
def extRight (a b : Str) (ahi bhi : Nat) : Nat → FlmSt → FlmSt
  | 0, st => st
  | f + 1, st =>
    if st.besti + st.bestsize < ahi ∧ st.bestj + st.bestsize < bhi ∧
        a.getD (st.besti + st.bestsize) ' ' = b.getD (st.bestj + st.bestsize) ' ' then
      extRight a b ahi bhi f ⟨st.besti, st.bestj, st.bestsize + 1⟩
    else st

/-- `SequenceMatcher.find_longest_match(alo, ahi, blo, bhi)` with an empty
junk set (the two junk-extension loops never fire and are omitted). -/
def flm (a b : Str) (bj : Char → List Nat) (alo ahi blo bhi : Nat) : FlmSt :=
  let st := flmRows a bj blo bhi (ahi - alo) alo (fun _ => 0) ⟨alo, blo, 0⟩
  let st := extLeft a b alo blo st.besti st
  extRight a b ahi bhi (ahi - (st.besti + st.bestsize)) st

/-- The raw matching blocks of `get_matching_blocks`, produced by the
recursion on subranges around each longest match (Python drives the same
recursion with an explicit queue).  The fuel `(ahi-alo)+(bhi-blo)+1`
strictly dominates the recursion depth, so the `0` branch is never taken
for the fuel supplied by `matchTotal`. -/
def blocksF (a b : Str) (bj : Char → List Nat) :
    Nat → Nat → Nat → Nat → Nat → List (Nat × Nat × Nat)
  | 0, _, _, _, _ => []
  | f + 1, alo, ahi, blo, bhi =>
    let m := flm a b bj alo ahi blo bhi
    if m.bestsize = 0 then []
    else
      blocksF a b bj f alo m.besti blo m.bestj ++
        (m.besti, m.bestj, m.bestsize) ::
          blocksF a b bj f (m.besti + m.bestsize) ahi (m.bestj + m.bestsize) bhi

/-- `sum(size for _, _, size in get_matching_blocks())`: the number of
matched elements that `ratio` counts (sorting, merging adjacent blocks and
the `(la, lb, 0)` sentinel leave this sum unchanged). -/
def matchTotal (a b : Str) : Nat :=
  ((blocksF a b (b2j b) (a.length + b.length + 1) 0 a.length 0 b.length).map
    (fun t => t.2.2)).sum

/-- `difflib._calculate_ratio(matches, length)`:
`2.0 * matches / length`, and `1.0` when `length == 0`. -/
def calcRatioQ (mtot len : Nat) : ℚ :=
  if len ≠ 0 then 2 * (mtot : ℚ) / (len : ℚ) else 1

/-- `SequenceMatcher(None, a, b).ratio()` (floats idealised as exact
rationals). -/
def ratioQ (a b : Str) : ℚ :=
  calcRatioQ (matchTotal a b) (a.length + b.length)

/-! ## Similarity matcher (`RidiBooks._parse_search_results`) -/

/-- One search-result entry: the stripped `title_text` span text, the
stripped author anchor text, and the `title_link` href consumed by the
orchestrator. -/
structure SRE where
  title : Str
  author : Str
  url : String
deriving DecidableEq, Repr

/-- `difflib.SequenceMatcher(None, title.replace(' ', ''), ''.join(title_tokens)).ratio()`. -/
def titleSimOf (ttoks : List Str) (e : SRE) : ℚ :=
  ratioQ (stripSpaces e.title) (joinStrs ttoks)

/-- `difflib.SequenceMatcher(None, author.replace(' ', ''), ''.join(author_tokens)).ratio()`.
Note that the *code* strips spaces from the entry's author text as well. -/
def authorSimOf (atoks : List Str) (e : SRE) : ℚ :=
  ratioQ (stripSpaces e.author) (joinStrs atoks)

/-- `title_similarity * author_similarity`, the combined score of the code. -/
def combinedScore (ttoks atoks : List Str) (e : SRE) : ℚ :=
  titleSimOf ttoks e * authorSimOf atoks e

/-- Modelled from the spec: the claim's author similarity, computed on the
raw entry author text (the spec's score omits the space-stripping that the
code applies to the author side); kept solely for comparison with
`authorSimOf`. -/
def claimAuthorSim (atoks : List Str) (e : SRE) : ℚ :=
  ratioQ e.author (joinStrs atoks)

/-- Modelled from the spec: the claim's combined score
(title similarity of the code times the claim's author similarity). -/
def claimCombinedScore (ttoks atoks : List Str) (e : SRE) : ℚ :=
  titleSimOf ttoks e * claimAuthorSim atoks e

/-- Python `max(l)` for a nonempty list: the first maximal element.  Python
raises `ValueError` on an empty list; the `[]` case is never reached here
because the caller guards `if not search_result: return`. -/
def pymax (l : List ℚ) : ℚ :=
  match l with
  | [] => 0
  | h :: t => t.foldl (fun acc x => if acc < x then x else acc) h

/-- Python `l.index(x)`: index of the first occurrence.  Python raises
`ValueError` when `x` is absent; the `[]` fallback is never reached because
the only use looks up `max(l)`, which is a member. -/
def pyIndex (x : ℚ) : List ℚ → Nat
  | [] => 0
  | y :: ys => if y = x then 0 else pyIndex x ys + 1

/-- Core of `RidiBooks._parse_search_results`: score every entry, then take
`search_result[similarities.index(max(similarities))]`.  Returns `none`
when the result list is empty (the early `return`). -/
def parseSearchResults (ttoks atoks : List Str) (entries : List SRE) : Option SRE :=
  match entries with
  | [] => none
  | _ :: _ =>
    let sims := entries.map (combinedScore ttoks atoks)
    entries[pyIndex (pymax sims) sims]?

/-- The `matches` contribution of `_parse_search_results`: the matched
entry's `title_link` href prefixed with `BASE_URL`, appended only when the
href is truthy. -/
def searchMatches (ttoks atoks : List Str) (entries : List SRE) : List String :=
  match parseSearchResults ttoks atoks entries with
  | none => []
  | some e => if e.url ≠ "" then ["http://ridibooks.com" ++ e.url] else []

/-! ## Resolution orchestrator (`RidiBooks.identify`)

The thread-spawning tail of `identify` hands the candidate URLs to
Workers; a result of `spawned urls` records exactly that hand-off (the
Worker lifecycle itself is modelled below with `workerRun`).  The
recursion of the no-identifier retry is unrolled once: the recursive call
passes `identifiers={}`, for which the retry guard `if identifiers and
title and authors` is unsatisfiable, so the second instance
(`identifyNoRetry`) can make no further recursive call. -/

/-- Outcome of fetching and parsing the search page: the three early-return
failure modes of `identify`, or the extracted `book_metadata_wrapper`
entries. -/
inductive SearchOutcome where
  | fetchError
  | emptyRaw
  | parseError
  | parsed (entries : List SRE)
deriving Repr

/-- External collaborators of `identify`: the search fetch outcome per
attempt (0 = first call, 1 = the no-identifier retry, which re-runs the
same title/author query), and the calibre-normalised title/author tokens. -/
structure IdEnv where
  search : Nat → SearchOutcome
  titleTokens : List Str
  authorTokens : List Str

/-- Result (trace) of one `identify` call. -/
inductive IdentifyResult where
  | insufficient
  | queryFailed
  | emptyResult
  | searchParseFailed
  | aborted
  | noMatches
  | retried (r : IdentifyResult)
  | spawned (urls : List String)
deriving DecidableEq, Repr

/-- `'%s/v2/Detail?id=%s' % (RidiBooks.BASE_URL, ridibooks_id)`. -/
def detailUrl (rid : String) : String :=
  "http://ridibooks.com/v2/Detail?id=" ++ rid

/-- `identifiers.get('ridibooks', None)` over the identifier dict
(modelled as an association list). -/
def getIdentifier (ids : List (String × String)) (k : String) : Option String :=
  (ids.find? (fun p => p.1 = k)).map (fun p => p.2)

/-- Truthiness of an optional Python string valued as `String`. -/
def truthyOStr (s : Option String) : Bool :=
  match s with
  | none => false
  | some t => t ≠ ""

/-- Truthiness of `title` (an optional string) in `identify`. -/
def truthyTitle (t : Option String) : Bool := truthyOStr t

/-- The body of `RidiBooks.identify`, parameterised by the action taken at
the recursive retry call.  `attempt` indexes the search fetch. -/
def identifyBody (retryK : Unit → IdentifyResult) (env : IdEnv) (abort : Bool)
    (attempt : Nat) (ids : List (String × String)) (title : Option String)
    (authors : List String) : IdentifyResult :=
  let rid := getIdentifier ids "ridibooks"
  if truthyOStr rid then
    -- direct path: one candidate URL, no search
    if abort then .aborted
    else .spawned [detailUrl (rid.getD "")]
  else
    -- search path; `create_query` returns None iff neither title nor authors
    if ¬ (truthyTitle title ∨ authors ≠ []) then .insufficient
    else
      match env.search attempt with
      | .fetchError => .queryFailed
      | .emptyRaw => .emptyResult
      | .parseError => .searchParseFailed
      | .parsed entries =>
        let ms := searchMatches env.titleTokens env.authorTokens entries
        if abort then .aborted
        else if ms.isEmpty then
          if ids ≠ [] ∧ truthyTitle title ∧ authors ≠ [] then .retried (retryK ())
          else .noMatches
        else .spawned ms

/-- The retry instance of `identify` (called with `identifiers={}`).  Its
own retry guard requires a nonempty identifier dict, so the continuation
passed here is dead code. -/
def identifyNoRetry (env : IdEnv) (abort : Bool) (title : Option String)
    (authors : List String) : IdentifyResult :=
  identifyBody (fun _ => .noMatches) env abort 1 [] title authors

/-- `RidiBooks.identify` (with the recursion unrolled once, see above). -/
def identify (env : IdEnv) (abort : Bool) (ids : List (String × String))
    (title : Option String) (authors : List String) : IdentifyResult :=
  identifyBody (fun _ => identifyNoRetry env abort title authors) env abort 0
    ids title authors

/-- Number of nested no-identifier retries recorded in a result. -/
def retryCount : IdentifyResult → Nat
  | .retried r => retryCount r + 1
  | _ => 0

/-! ## Title/series splitter (`Worker.parse_title_series`) -/

/-- The `(title, series, series_index)` triple returned by
`Worker.parse_title_series`. -/
structure TitleSeries where
  title : Option Str
  series : Option Str
  index : Option ℚ
deriving DecidableEq, Repr

/-- The `while series_info.count(')') != series_info.count('('):` loop of
`parse_title_series`, which walks leftward through `title` merging
fragments until the parenthesis counts in `series_info` balance.  `fuel`
bounds the iteration count; `titleSeriesFuel` below always supplies enough
fuel for every state reachable from `parse_title_series` (where
`series_info` initially contains no `'('`), as the loop then terminates in
Python as well.  A `none` result models a diverging loop. -/
def balanceLoop : Nat → Str → Str → Option (Str × Str)
  | 0, _, _ => none
  | fuel + 1, title, si =>
    if si.count ')' ≠ si.count '(' then
      let tsplit := pyRpartition '(' title
      balanceLoop fuel (pyStrip tsplit.1) (tsplit.2.2 ++ '(' :: si)
    else some (title, si)

/-- Fuel supplied to `balanceLoop`: strictly dominates the measure
`2*|title| + (count ')' si - count '(' si)`, which decreases at every
iteration while `count '(' si ≤ count ')' si` (an invariant of all states
reachable from `parse_title_series`). -/
def titleSeriesFuel (title si : Str) : Nat :=
  2 * title.length + si.count ')' + 1

/-- The candidate series-name string: `series_info.rpartition('#')[0]`,
stripped, with one trailing comma removed. -/
def seriesNameStr (si : Str) : Str :=
  let sname := pyStrip (pyRpartition '#' si).1
  if sname.getLast? = some ',' then sname.dropLast else sname

/-- The candidate series-index string: `series_info.rpartition('#')[2]`,
stripped; when `find('-')` is truthy (i.e. not 0), the part before the
first `'-'`, stripped (so `"1-5"` becomes `"1"`). -/
def seriesIndexStr (si : Str) : Str :=
  let sidx := pyStrip (pyRpartition '#' si).2.2
  if pyFindI '-' sidx ≠ 0 then pyStrip (pyPartitionF '-' sidx).1 else sidx

/-- `Worker.parse_title_series` on the stripped display title (`none`
models the diverging-loop case, which is unreachable; see
`titleSeriesCoreO_isSome`). -/
def titleSeriesCoreO (titleText : Str) : Option TitleSeries :=
  if (titleText.findIdx? (fun x => x = '(')).isNone then
    some ⟨some titleText, none, none⟩
  else
    let tsplit := pyRpartition '(' titleText
    let seriesInfo0 := tsplit.2.2
    if pyFindI '#' seriesInfo0 ≤ 0 then
      -- no '#' in the bracketed suffix, or '#' at its start: whole string
      -- is the title and series_info is cleared
      some ⟨some (pyStrip titleText), none, none⟩
    else
      let si1 := seriesInfo0.dropLast
      match balanceLoop (titleSeriesFuel tsplit.1 si1) tsplit.1 si1 with
      | none => none
      | some (title1, si2) =>
        if truthyS si2 then
          match pyFloat (seriesIndexStr si2) with
          | some q => some ⟨some (pyStrip title1), some (seriesNameStr si2), some q⟩
          | none => some ⟨some (pyStrip titleText), none, none⟩
        else some ⟨some (pyStrip title1), none, none⟩

/-- Total version of `titleSeriesCoreO`; the `none` (diverging) case never
arises (`titleSeriesCoreO_isSome`), so the default is inert. -/
def titleSeriesCore (titleText : Str) : TitleSeries :=
  (titleSeriesCoreO titleText).getD ⟨none, none, none⟩

/-- `Worker.parse_title_series`: `//meta[@property="og:title"]/@content`
nodes in, `(None, None, None)` when the node list is empty, otherwise the
split of the stripped first node. -/
def parse_title_series (ogTitle : List Str) : TitleSeries :=
  match ogTitle.head? with
  | none => ⟨none, none, none⟩
  | some t => titleSeriesCore (pyStrip t)

/-! ## Detail page model and field parsers (`worker.py`) -/

/-- The `li[@class="metadata_writer"]` author block: the `./span/a/text()`
author names and the parallel `./span/text()` role labels. -/
structure WriterNode where
  authors : List Str
  roles : List Str
deriving DecidableEq, Repr

/-- The `ul[@class="info_metadata02_wrap"]` publisher block: the
`span[@itemprop="publisher"]//span/text()` nodes and the
`span[@itemprop="datePublished"]/@content` nodes. -/
structure InfoNode where
  publisherTexts : List Str
  pubdateContents : List Str
deriving DecidableEq, Repr

/-- A parsed detail-page document, holding the text/attribute node lists
that the individual field parsers read via XPath. -/
structure Page where
  ogTitle : List Str
  metadataWriter : Option WriterNode
  infoMetadata : Option InfoNode
  ratingContents : List Str
  introduceBook : List Str
  ogImage : List String
  isbnContents : List Str
  genres : List (List Str)
  errorMessage : Bool
deriving Repr

/-- The plugin configuration snapshot read through `cfg.plugin_prefs`. -/
structure Cfg where
  getAllAuthors : Bool
  genreMappings : List (Str × List Str)
deriving Repr

/-- A published metadata record (calibre `Metadata` restricted to the
fields this worker touches). -/
structure MetadataRec where
  title : Str
  authors : List Str
  series : Option Str
  seriesIndex : Option ℚ
  ridibooks : Str
  isbn : Option Str
  rating : Option ℚ
  publisher : Option Str
  pubdate : Option (Int × Int × Int)
  comments : Option Str
  hasCover : Bool
  tags : List Str
  language : Option String
  sourceRelevance : Nat
deriving Repr

/-- Outcome of the fetch-and-parse prefix of `Worker.get_details`: the
404 / timeout / other transport failures, an empty response body, an
unparseable body, or the parsed document (the opaque `raw` bytes and
`lxml.fromstring` are collapsed into one outcome). -/
inductive FetchRes where
  | err404
  | timeout
  | otherErr
  | emptyBody
  | badParse
  | ok (page : Page)
deriving Repr

/-- External collaborators of one `Worker`: its candidate URL and
relevance rank, the fetch/parse outcome of the detail page, the cover
content-length probe (`browser.open_novisit(img_url).info()` plus `int`
conversion; `.error` models any exception in that chain), the host's
`sanitize_comments_html`, and the host's `clean_downloaded_metadata` hook
(`.error` models an exception raised by the host inside
`parse_details`). -/
structure WEnv where
  url : Str
  relevance : Nat
  fetch : FetchRes
  probe : String → Except Unit Int
  sanitize : Str → Str
  cleanHook : MetadataRec → Except Unit MetadataRec

/-- `re.search('/v2/Detail\\?id=(\\d+)', url)`: the first position where
the literal is followed by at least one ASCII digit; the group is the
maximal digit run there.  `none` models the `AttributeError` raised by
`.groups` on a failed search (caught by `parse_details`). -/
def findDetailId : Str → Option Str
  | [] => none
  | c :: rest =>
    let s := c :: rest
    let lit := "/v2/Detail?id=".data
    if s.take lit.length = lit ∧ (((s.drop lit.length).headD ' ').isDigit = true) then
      some ((s.drop lit.length).takeWhile (·.isDigit))
    else findDetailId rest

/-- Role-label normalisation in `parse_authors`:
`re.sub(',', '', x.strip())`. -/
def normRole (r : Str) : Str := (pyStrip r).filter (fun c => c ≠ ',')

/-- The translator marker appended to a name: `u'(역자)'`. -/
def translatorMarker : Str := "(역자)".data

/-- The `for i in range(author_index_max + 1, translator_index_max + 1):`
marking loop: `authors[i] = authors[i] + u'(역자)'`, one index at a time;
`none` models the `IndexError` raised when an index is out of range.  The
fuel argument equals the number of remaining iterations (`markRange`
passes `stop - i`), so the `0` case is exactly loop exit. -/
def markLoop : Nat → List Str → Nat → Nat → Option (List Str)
  | 0, l, _, _ => some l
  | fuel + 1, l, i, stop =>
    if i < stop then
      if h : i < l.length then
        markLoop fuel (l.set i (l.get ⟨i, h⟩ ++ translatorMarker)) (i + 1) stop
      else none
    else some l

/-- The marking loop over `range(lo, stop)`. -/
def markRange (l : List Str) (lo stop : Nat) : Option (List Str) :=
  markLoop (stop - lo) l lo stop

/-- `Worker.parse_authors`.  `.error` models an uncaught exception: the
`[0]` IndexError when the author block is missing, the `ValueError` from
`.index(u'저')` / `.index(u'역')` when a role label is absent, or the
IndexError from the marking loop.  An lxml element is falsy when it has no
child elements; the `if not base_node: return` branch (returning Python
`None`) is modelled as `.ok []`, which is indistinguishable from `[]` at
the only use site (`if not title or not authors or ...`). -/
def parse_authors (cfg : Cfg) (page : Page) : Except Unit (List Str) :=
  match page.metadataWriter with
  | none => .error ()
  | some w =>
    if w.authors = [] ∧ w.roles = [] then .ok []
    else
      let roles := w.roles.map normRole
      match roles.findIdx? (fun r => r = "저".data),
            roles.findIdx? (fun r => r = "역".data) with
      | some aim, some tim =>
        match markRange w.authors (aim + 1) (tim + 1) with
        | none => .error ()
        | some marked =>
          .ok (if cfg.getAllAuthors then marked else marked.take aim)
      | _, _ => .error ()

/-- A `[0-9A-Z]` character (ASCII digits and upper-case letters). -/
def isIsbnChar (c : Char) : Bool := c.isDigit || c.isUpper

/-- Scanner for `re.search('([0-9A-Z]{10,})', text)`: walks the string
keeping the current `[0-9A-Z]` run (reversed) and yields the first maximal
run of length at least 10 — exactly the leftmost-greedy match of the
pattern. -/
def isbnScanAux : Str → Str → Option Str
  | [], run => if 10 ≤ run.length then some run.reverse else none
  | c :: rest, run =>
    if isIsbnChar c then isbnScanAux rest (c :: run)
    else if 10 ≤ run.length then some run.reverse
    else isbnScanAux rest []

/-- `re.search('([0-9A-Z]{10,})', text)` over one identifier node. -/
def isbnScan (s : Str) : Option Str := isbnScanAux s []

/-- The `for node in isbn_nodes:` loop of `Worker.parse_isbn`: each node is
stripped and scanned; a successful scan *overwrites* `isbn_text`, so the
accumulator ends at the match of the last node that had one. -/
def isbnLoop : List Str → Option Str → Option Str
  | [], acc => acc
  | n :: ns, acc =>
    isbnLoop ns (match isbnScan (pyStrip n) with
      | some m => some m
      | none => acc)

/-- `Worker.parse_isbn`.  `.error` models the `NameError` on
`return isbn_text.strip()` when no node ever matched (the variable was
never bound). -/
def parse_isbn (page : Page) : Except Unit Str :=
  match isbnLoop page.isbnContents none with
  | none => .error ()
  | some t => .ok (pyStrip t)

/-- Modelled from the spec: the claim's reading of the ISBN extractor, in
which the *first* match across the scanned identifier nodes wins; kept
solely for comparison with `parse_isbn`. -/
def isbnFirstMatch : List Str → Option Str
  | [] => none
  | n :: ns =>
    match isbnScan (pyStrip n) with
    | some m => some m
    | none => isbnFirstMatch ns

/-- Concrete page for the C5 counterexample: two identifier nodes, both
holding a 10-character `[0-9A-Z]` run. -/
def isbnCexPage : Page where
  ogTitle := []
  metadataWriter := none
  infoMetadata := none
  ratingContents := []
  introduceBook := []
  ogImage := []
  isbnContents := ["ABCDEFGHIJ".data, "1234567890".data]
  genres := []
  errorMessage := false

/-- `Worker.parse_rating`: parse the first
`//meta[@itemprop="ratingValue"]/@content` node as a float; no node means
Python returns `None`; a `ValueError` from `float(...)` is `.error`. -/
def parse_rating (page : Page) : Except Unit (Option ℚ) :=
  match page.ratingContents.head? with
  | none => .ok none
  | some t =>
    match pyFloat t with
    | some q => .ok (some q)
    | none => .error ()

/-- `Worker._convert_date_text`: `int` of the `[0:4]`, `[4:6]`, `[6:]`
slices of an 8-digit `YYYYMMDD` literal, fed to `datetime.datetime`,
whose constructor validates the ranges (`ValueError` otherwise). -/
def convertDateText (d : Str) : Except Unit (Int × Int × Int) :=
  match pyInt (d.take 4), pyInt ((d.drop 4).take 2), pyInt (d.drop 6) with
  | some y, some m, some day =>
    let leap : Bool := y % 4 = 0 ∧ (y % 100 ≠ 0 ∨ y % 400 = 0)
    let dim : Int :=
      if m = 2 then (if leap then 29 else 28)
      else if m = 4 ∨ m = 6 ∨ m = 9 ∨ m = 11 then 30
      else 31
    if 1 ≤ y ∧ y ≤ 9999 ∧ 1 ≤ m ∧ m ≤ 12 ∧ 1 ≤ day ∧ day ≤ dim then
      .ok (y, m, day)
    else .error ()
  | _, _, _ => .error ()

/-- `Worker.parse_publisher_date`.  `.error` models: the `[0]` IndexError
when the `info_metadata02_wrap` block or either inner node list is absent,
the `TypeError` from unpacking the bare `return` taken when the block node
is falsy (no child elements — approximated as both inner lists empty), or
a conversion error in `_convert_date_text`. -/
def parse_publisher_date (page : Page) : Except Unit (Str × (Int × Int × Int)) :=
  match page.infoMetadata with
  | none => .error ()
  | some node =>
    if node.publisherTexts = [] ∧ node.pubdateContents = [] then .error ()
    else
      match node.publisherTexts.head?, node.pubdateContents.head? with
      | some p, some d =>
        match convertDateText d with
        | .ok date => .ok (p, date)
        | .error e => .error e
      | _, _ => .error ()

/-- One pass of `comments.replace('  ', ' ')`: non-overlapping left-to-right
replacement of two spaces by one. -/
def collapseOnce : Str → Str
  | [] => []
  | [c] => [c]
  | c1 :: c2 :: rest =>
    if c1 = ' ' ∧ c2 = ' ' then ' ' :: collapseOnce rest
    else c1 :: collapseOnce (c2 :: rest)

/-- Whether the string still contains a double space
(`comments.find('  ') >= 0`). -/
def hasDoubleSpace : Str → Bool
  | c1 :: c2 :: rest => (c1 = ' ' && c2 = ' ') || hasDoubleSpace (c2 :: rest)
  | _ => false

/-- The `while comments.find('  ') >= 0:` loop.  Each pass on a string
containing a double space strictly shortens it, so fuel `|s| + 1` always
suffices; the fuel-exhaustion branch returns the current string and is
unreachable for the fuel supplied by `collapseSpaces`. -/
def collapseLoop : Nat → Str → Str
  | 0, s => s
  | fuel + 1, s => if hasDoubleSpace s then collapseLoop fuel (collapseOnce s) else s

/-- Repeated space collapsing in `Worker.parse_comments`. -/
def collapseSpaces (s : Str) : Str := collapseLoop (s.length + 1) s

/-- `Worker.parse_comments`: pick the first `div[@id="introduce_book"]`
rendering when there is exactly one and the second otherwise (the node
list is nonempty in that branch), collapse repeated spaces, and pass the
result through the host's `sanitize_comments_html`.  The lxml `remove` of
the `view_more` button and `tostring` serialisation are external; the
`introduceBook` entries model their output.  No node: Python returns
`None`. -/
def parse_comments (env : WEnv) (page : Page) : Except Unit (Option Str) :=
  match page.introduceBook with
  | [] => .ok none
  | [d] => .ok (some (env.sanitize (collapseSpaces (pyStrip d))))
  | _ :: d :: _ => .ok (some (env.sanitize (collapseSpaces (pyStrip d))))

/-- `Worker.parse_cover`: no `og:image` node means `None`; otherwise probe
the URL and keep it only when the reported `Content-Length` exceeds 1000
bytes (broken-placeholder guard); a probe failure propagates as the
exception that `parse_details` catches. -/
def parse_cover (env : WEnv) (page : Page) : Except Unit (Option String) :=
  match page.ogImage.head? with
  | none => .ok none
  | some u =>
    match env.probe u with
    | .error e => .error e
    | .ok n => if 1000 < n then .ok (some u) else .ok none

/-- Lower-casing for the case-insensitive genre lookup. -/
def lowerStr (s : Str) : Str := s.map Char.toLower

/-- The genre-to-tag mapping lookup of
`Worker._convert_genres_to_calibre_tags` (keys lowered, get with default
`None`). -/
def genreLookup (mp : List (Str × List Str)) (g : Str) : Option (List Str) :=
  (mp.find? (fun p => lowerStr p.1 = lowerStr g)).map (fun p => p.2)

/-- Deduplicating append: `if tag not in tags_to_add: tags_to_add.append(tag)`. -/
def dedupAppend (acc : List Str) (tags : List Str) : List Str :=
  tags.foldl (fun a t => if t ∈ a then a else a ++ [t]) acc

/-- `Worker._convert_genres_to_calibre_tags`. -/
def convertGenres (cfg : Cfg) (genreTags : List Str) : List Str :=
  genreTags.foldl (fun acc g =>
    match genreLookup cfg.genreMappings g with
    | some tags => dedupAppend acc tags
    | none => acc) []

/-- Python `' > '.join(parts)`. -/
def joinArrow : List Str → Str
  | [] => []
  | [p] => p
  | p :: q :: rest => p ++ " > ".data ++ joinArrow (q :: rest)

/-- `Worker.parse_tags`: per genre node, join the anchor texts with
`' > '` (skipping nodes with no anchors), run the result through the
configured genre mapping, and return the tags only when nonempty (Python
returns `None` otherwise). -/
def parse_tags (cfg : Cfg) (page : Page) : Option (List Str) :=
  match page.genres with
  | [] => none
  | gs =>
    let genreTags := (gs.filter (fun g => g ≠ [])).map joinArrow
    let calibreTags := convertGenres cfg genreTags
    if 0 < calibreTags.length then some calibreTags else none

/-- `Worker._parse_language`: hard-coded `"Korean"`. -/
def parseLanguage : String := "Korean"

/-! ## `Worker.parse_details`, `Worker.get_details`, `Worker.run` -/

/-- `ridibooks_id` after the wrapped `parse_ridibooks_id` call (exception
caught, leaving `None`). -/
def ridOf (env : WEnv) : Option Str := findDetailId env.url

/-- `authors` after the wrapped `parse_authors` call (exception caught,
leaving `authors = []`). -/
def authorsOf (cfg : Cfg) (page : Page) : List Str :=
  match parse_authors cfg page with
  | .ok l => l
  | .error _ => []

/-- The mandatory-field test
`if not title or not authors or not ridibooks_id:` of `parse_details`
(negated: all three truthy). -/
def mandatoryOk (env : WEnv) (cfg : Cfg) (page : Page) : Bool :=
  truthyOS (parse_title_series page.ogTitle).title &&
    !(authorsOf cfg page).isEmpty && truthyOS (ridOf env)

/-- The `Metadata` object assembled by `parse_details` once the mandatory
check has passed: each optional field falls back to its default when its
(individually wrapped) parser raises. -/
def builtRecord (env : WEnv) (cfg : Cfg) (page : Page) : MetadataRec :=
  let ts := parse_title_series page.ogTitle
  { title := ts.title.getD []
    authors := authorsOf cfg page
    series := if truthyOS ts.series then ts.series else none
    seriesIndex := if truthyOS ts.series then ts.index else none
    ridibooks := (ridOf env).getD []
    isbn :=
      match parse_isbn page with
      | .ok s => if truthyS s then some s else none
      | .error _ => none
    rating :=
      match parse_rating page with
      | .ok r => r
      | .error _ => none
    publisher :=
      match parse_publisher_date page with
      | .ok (p, _) => some p
      | .error _ => none
    pubdate :=
      match parse_publisher_date page with
      | .ok (_, d) => some d
      | .error _ => none
    comments :=
      match parse_comments env page with
      | .ok c => c
      | .error _ => none
    hasCover :=
      truthyOStr (match parse_cover env page with
        | .ok c => c
        | .error _ => none)
    tags := (parse_tags cfg page).getD []
    language := some parseLanguage
    sourceRelevance := env.relevance }

/-- `Worker.parse_details`.  Each optional field parser is wrapped in its
own `try/except` (a failure falls back to the default, see `builtRecord`);
the record is abandoned (nothing is put on the queue, `.ok []`) when the
mandatory-field test fails.  The cache-population calls
(`cache_isbn_to_identifier`, `cache_identifier_to_cover_url`) mutate host
caches only and are not modelled.  `.error` models an exception escaping
`parse_details` itself — in this model only the host's
`clean_downloaded_metadata` hook can raise after the wrapped sections —
which `run` catches.  The returned list holds the records put on the
result queue. -/
def parse_details (env : WEnv) (cfg : Cfg) (page : Page) : Except Unit (List MetadataRec) :=
  if ¬ (truthyOS (parse_title_series page.ogTitle).title ∧
      ¬ (authorsOf cfg page).isEmpty ∧ truthyOS (ridOf env)) then .ok []
  else
    match env.cleanHook (builtRecord env cfg page) with
    | .error e => .error e
    | .ok mi2 => .ok [mi2]

/-- `Worker.get_details`: the fetch/decode/parse prefix turns transport and
parse failures into logged early returns (no record); a page carrying an
`errorMessage` element is likewise abandoned; otherwise `parse_details`
runs.  The og:title sanity block (lines 89-101 of worker.py) can take no
action: its inner `if title is None` is unreachable under the outer
`if title:`. -/
def get_details (env : WEnv) (cfg : Cfg) : Except Unit (List MetadataRec) :=
  match env.fetch with
  | .err404 => .ok []
  | .timeout => .ok []
  | .otherErr => .ok []
  | .emptyBody => .ok []
  | .badParse => .ok []
  | .ok page =>
    if page.errorMessage then .ok []
    else parse_details env cfg page

/-- `Worker.run`: `try: self.get_details() except: log.exception(...)` —
every exception is converted to a logged no-op, so the worker publishes the
records of a successful `get_details` and nothing otherwise. -/
def workerRun (env : WEnv) (cfg : Cfg) : List MetadataRec :=
  match get_details env cfg with
  | .ok l => l
  | .error _ => []

/-! ## Range bounds for `find_longest_match` and the matched total -/

/-- Well-formedness of a best triple relative to the search ranges
`[alo, ahi) × [blo, bhi)`. -/
def StOK (alo blo ahi bhi : Nat) (st : FlmSt) : Prop :=
  alo ≤ st.besti ∧ blo ≤ st.bestj ∧
    st.besti + st.bestsize ≤ ahi ∧ st.bestj + st.bestsize ≤ bhi

/-- Well-formedness of a `j2len` row built while scanning rows
`alo, ..., bound - 1`: nonzero entries sit inside `[blo, bhi)`, record at
most `bound - alo` matched rows, and at most `j + 1 - blo` matched
columns. -/
def J2OK (alo blo bhi bound : Nat) (f : Nat → Nat) : Prop :=
  ∀ j, f j ≠ 0 → blo ≤ j ∧ j < bhi ∧ f j + alo ≤ bound ∧ f j + blo ≤ j + 1

/-- Total size of a block list. -/
def sumSizes (l : List (Nat × Nat × Nat)) : Nat :=
  (l.map (fun t => t.2.2)).sum

/-! ## Concrete sample data used by the witnesses -/

/-- A healthy detail page: title, author block with one author and one
translator, publisher block, rating, description, cover and ISBN. -/
def samplePage : Page where
  ogTitle := ["T".data]
  metadataWriter := some ⟨["A".data, "B".data], ["저".data, "역".data]⟩
  infoMetadata := some ⟨["P".data], ["20200102".data]⟩
  ratingContents := ["4.5".data]
  introduceBook := ["desc".data]
  ogImage := ["http://img"]
  isbnContents := ["1234567890".data]
  genres := []
  errorMessage := false

/-- A worker environment whose external collaborators all succeed. -/
def sampleEnv : WEnv where
  url := "http://ridibooks.com/v2/Detail?id=593000535".data
  relevance := 0
  fetch := .ok samplePage
  probe := fun _ => .ok 5000
  sanitize := fun s => s
  cleanHook := fun m => .ok m

def sampleCfg : Cfg where
  getAllAuthors := true
  genreMappings := []

/-- Environment whose cover probe reports a small (broken-placeholder)
resource. -/
def smallCoverEnv : WEnv :=
  { sampleEnv with probe := fun _ => .ok 500 }

/-- Environment whose host cleanup hook raises: the exception must be
swallowed by `run()` with nothing published. -/
def failingCleanEnv : WEnv :=
  { sampleEnv with cleanHook := fun _ => .error () }

/-- Page listing an author but no translator role label. -/
def noTranslatorPage : Page :=
  { samplePage with metadataWriter := some ⟨["A".data], ["저".data]⟩ }

/-- A search environment for the C4 witness (its search outcome is never
consulted on the direct path). -/
def sampleIdEnv : IdEnv where
  search := fun _ => .parsed []
  titleTokens := []
  authorTokens := []

/-- The matcher contract of C1 (with the code's space-stripped author
similarity): the returned entry is a member of the input list at the first
position attaining the maximal combined score; every combined score and
both factor similarities lie in `[0, 1]`; and a zero author similarity
forces a zero combined score. -/
def MatcherSpec (ttoks atoks : List Str) (entries : List SRE) : Prop :=
  ∃ i : Nat, ∃ e : SRE, i < entries.length ∧ entries[i]? = some e ∧
    parseSearchResults ttoks atoks entries = some e ∧
    (∀ j : Nat, ∀ ej : SRE, entries[j]? = some ej →
      combinedScore ttoks atoks ej ≤ combinedScore ttoks atoks e) ∧
    (∀ j : Nat, ∀ ej : SRE, j < i → entries[j]? = some ej →
      combinedScore ttoks atoks ej < combinedScore ttoks atoks e) ∧
    (∀ e2 : SRE, 0 ≤ combinedScore ttoks atoks e2 ∧
      combinedScore ttoks atoks e2 ≤ 1 ∧
      0 ≤ titleSimOf ttoks e2 ∧ titleSimOf ttoks e2 ≤ 1 ∧
      0 ≤ authorSimOf atoks e2 ∧ authorSimOf atoks e2 ≤ 1) ∧
    (∀ e2 : SRE, authorSimOf atoks e2 = 0 → combinedScore ttoks atoks e2 = 0)

/-- First counterexample entry: author text `"a b"` (space inside). -/
def c1e0 : SRE := ⟨"x".data, "a b".data, "u0"⟩

/-- Second counterexample entry: author text `"ab"`. -/
def c1e1 : SRE := ⟨"x".data, "ab".data, "u1"⟩


theorem flmK_bounds {alo blo bhi i j : Nat} {j2old : Nat → Nat}
    (hj2 : J2OK alo blo bhi i j2old) (halo : alo ≤ i) (hblo : blo ≤ j) :
    flmK j2old j + alo ≤ i + 1 ∧ flmK j2old j + blo ≤ j + 1 := by
  by_cases h0 : j = 0
  · subst h0
    have hk : flmK j2old 0 = 1 := rfl
    rw [hk]
    omega
  · have hk : flmK j2old j = j2old (j - 1) + 1 := by
      simp [flmK, h0]
    rw [hk]
    by_cases hz : j2old (j - 1) = 0
    · rw [hz]; omega
    · obtain ⟨_, _, h3, h4⟩ := hj2 (j - 1) hz
      omega

theorem flmStep_ok {alo blo ahi bhi i j : Nat} {j2old nw : Nat → Nat} {st : FlmSt}
    (halo : alo ≤ i) (hi : i < ahi) (hblo : blo ≤ j) (hbhi : j < bhi)
    (hj2 : J2OK alo blo bhi i j2old) (hnw : J2OK alo blo bhi (i + 1) nw)
    (hst : StOK alo blo ahi bhi st) :
    J2OK alo blo bhi (i + 1) (flmStep i j2old j nw st).1 ∧
      StOK alo blo ahi bhi (flmStep i j2old j nw st).2 := by
  obtain ⟨hka, hkb⟩ := flmK_bounds hj2 halo hblo
  constructor
  · intro x hx
    have h1 : (flmStep i j2old j nw st).1 = updFn nw j (flmK j2old j) := rfl
    rw [h1] at hx ⊢
    unfold updFn at hx ⊢
    by_cases hxj : x = j
    · simp only [if_pos hxj] at hx ⊢
      subst hxj
      exact ⟨hblo, hbhi, by omega, by omega⟩
    · simp only [if_neg hxj] at hx ⊢
      exact hnw x hx
  · have h2 : (flmStep i j2old j nw st).2 =
        if st.bestsize < flmK j2old j then
          ⟨i + 1 - flmK j2old j, j + 1 - flmK j2old j, flmK j2old j⟩
        else st := rfl
    rw [h2]
    by_cases hlt : st.bestsize < flmK j2old j
    · simp only [if_pos hlt]
      unfold StOK
      dsimp only
      exact ⟨by omega, by omega, by omega, by omega⟩
    · simp only [if_neg hlt]
      exact hst

theorem flmInner_ok {alo blo ahi bhi i : Nat} {j2old : Nat → Nat}
    (halo : alo ≤ i) (hi : i < ahi) (hj2 : J2OK alo blo bhi i j2old) :
    ∀ (js : List Nat) (nw : Nat → Nat) (st : FlmSt),
      J2OK alo blo bhi (i + 1) nw → StOK alo blo ahi bhi st →
      J2OK alo blo bhi (i + 1) (flmInner i blo bhi j2old js nw st).1 ∧
        StOK alo blo ahi bhi (flmInner i blo bhi j2old js nw st).2
  | [], nw, st, hnw, hst => ⟨hnw, hst⟩
  | j :: js, nw, st, hnw, hst => by
    by_cases hjlo : j < blo
    · have heq : flmInner i blo bhi j2old (j :: js) nw st =
          flmInner i blo bhi j2old js nw st := by
        simp [flmInner, hjlo]
      rw [heq]
      exact flmInner_ok halo hi hj2 js nw st hnw hst
    · by_cases hjhi : bhi ≤ j
      · have heq : flmInner i blo bhi j2old (j :: js) nw st = (nw, st) := by
          simp [flmInner, hjlo, hjhi]
        rw [heq]
        exact ⟨hnw, hst⟩
      · have heq : flmInner i blo bhi j2old (j :: js) nw st =
            flmInner i blo bhi j2old js (flmStep i j2old j nw st).1
              (flmStep i j2old j nw st).2 := by
          simp [flmInner, hjlo, hjhi]
        rw [heq]
        obtain ⟨hnw2, hst2⟩ :=
          flmStep_ok halo hi (Nat.le_of_not_lt hjlo) (Nat.lt_of_not_le hjhi)
            hj2 hnw hst
        exact flmInner_ok halo hi hj2 js _ _ hnw2 hst2

theorem flmRows_ok {alo blo ahi bhi : Nat} {a : Str} {bj : Char → List Nat} :
    ∀ (steps i : Nat) (j2 : Nat → Nat) (st : FlmSt),
      alo ≤ i → i + steps = ahi → J2OK alo blo bhi i j2 →
      StOK alo blo ahi bhi st →
      StOK alo blo ahi bhi (flmRows a bj blo bhi steps i j2 st)
  | 0, _, _, _, _, _, _, hst => hst
  | steps + 1, i, j2, st, halo, hsum, hj2, hst => by
    have hi : i < ahi := by omega
    obtain ⟨hnw2, hst2⟩ := flmInner_ok halo hi hj2 (bj (a.getD i ' '))
      (fun _ => 0) st (fun j hj => absurd rfl hj) hst
    have heq : flmRows a bj blo bhi (steps + 1) i j2 st =
        flmRows a bj blo bhi steps (i + 1)
          (flmInner i blo bhi j2 (bj (a.getD i ' ')) (fun _ => 0) st).1
          (flmInner i blo bhi j2 (bj (a.getD i ' ')) (fun _ => 0) st).2 := by
      simp [flmRows]
    rw [heq]
    exact flmRows_ok steps (i + 1) _ _ (by omega) (by omega) hnw2 hst2

theorem extLeft_ok {alo blo ahi bhi : Nat} {a b : Str} :
    ∀ (f : Nat) (st : FlmSt), StOK alo blo ahi bhi st →
      StOK alo blo ahi bhi (extLeft a b alo blo f st)
  | 0, _, hst => hst
  | f + 1, st, hst => by
    have heq : extLeft a b alo blo (f + 1) st =
        if alo < st.besti ∧ blo < st.bestj ∧
            a.getD (st.besti - 1) ' ' = b.getD (st.bestj - 1) ' ' then
          extLeft a b alo blo f ⟨st.besti - 1, st.bestj - 1, st.bestsize + 1⟩
        else st := rfl
    by_cases hc : alo < st.besti ∧ blo < st.bestj ∧
        a.getD (st.besti - 1) ' ' = b.getD (st.bestj - 1) ' '
    · rw [heq, if_pos hc]
      obtain ⟨c1, c2, _⟩ := hc
      obtain ⟨s1, s2, s3, s4⟩ := hst
      refine extLeft_ok f _ ?_
      unfold StOK
      dsimp only
      exact ⟨by omega, by omega, by omega, by omega⟩
    · rw [heq, if_neg hc]
      exact hst

theorem extRight_ok {alo blo ahi bhi : Nat} {a b : Str} :
    ∀ (f : Nat) (st : FlmSt), StOK alo blo ahi bhi st →
      StOK alo blo ahi bhi (extRight a b ahi bhi f st)
  | 0, _, hst => hst
  | f + 1, st, hst => by
    have heq : extRight a b ahi bhi (f + 1) st =
        if st.besti + st.bestsize < ahi ∧ st.bestj + st.bestsize < bhi ∧
            a.getD (st.besti + st.bestsize) ' ' = b.getD (st.bestj + st.bestsize) ' ' then
          extRight a b ahi bhi f ⟨st.besti, st.bestj, st.bestsize + 1⟩
        else st := rfl
    by_cases hc : st.besti + st.bestsize < ahi ∧ st.bestj + st.bestsize < bhi ∧
        a.getD (st.besti + st.bestsize) ' ' = b.getD (st.bestj + st.bestsize) ' '
    · rw [heq, if_pos hc]
      obtain ⟨c1, c2, _⟩ := hc
      obtain ⟨s1, s2, s3, s4⟩ := hst
      refine extRight_ok f _ ?_
      unfold StOK
      dsimp only
      exact ⟨by omega, by omega, by omega, by omega⟩
    · rw [heq, if_neg hc]
      exact hst

theorem flm_ok {a b : Str} {bj : Char → List Nat} {alo ahi blo bhi : Nat}
    (h1 : alo ≤ ahi) (h2 : blo ≤ bhi) :
    StOK alo blo ahi bhi (flm a b bj alo ahi blo bhi) := by
  unfold flm
  apply extRight_ok
  apply extLeft_ok
  refine flmRows_ok (ahi - alo) alo _ _ le_rfl (by omega)
    (fun j hj => absurd rfl hj) ?_
  unfold StOK
  dsimp only
  exact ⟨le_rfl, le_rfl, by omega, by omega⟩

theorem sumSizes_append (l1 l2 : List (Nat × Nat × Nat)) :
    sumSizes (l1 ++ l2) = sumSizes l1 + sumSizes l2 := by
  simp [sumSizes]

theorem sumSizes_cons (x : Nat × Nat × Nat) (l : List (Nat × Nat × Nat)) :
    sumSizes (x :: l) = x.2.2 + sumSizes l := by
  simp [sumSizes]

theorem blocksF_sum {a b : Str} {bj : Char → List Nat} :
    ∀ (f alo ahi blo bhi : Nat), alo ≤ ahi → blo ≤ bhi →
      sumSizes (blocksF a b bj f alo ahi blo bhi) + alo ≤ ahi ∧
        sumSizes (blocksF a b bj f alo ahi blo bhi) + blo ≤ bhi
  | 0, alo, ahi, blo, bhi, h1, h2 => by
    simp only [blocksF, sumSizes, List.map_nil, List.sum_nil]
    omega
  | f + 1, alo, ahi, blo, bhi, h1, h2 => by
    obtain ⟨m1, m2, m3, m4⟩ := @flm_ok a b bj alo ahi blo bhi h1 h2
    by_cases hz : (flm a b bj alo ahi blo bhi).bestsize = 0
    · have heq : blocksF a b bj (f + 1) alo ahi blo bhi = [] := by
        simp [blocksF, hz]
      rw [heq]
      simp only [sumSizes, List.map_nil, List.sum_nil]
      omega
    · have heq : blocksF a b bj (f + 1) alo ahi blo bhi =
          blocksF a b bj f alo (flm a b bj alo ahi blo bhi).besti blo
              (flm a b bj alo ahi blo bhi).bestj ++
            ((flm a b bj alo ahi blo bhi).besti,
              (flm a b bj alo ahi blo bhi).bestj,
              (flm a b bj alo ahi blo bhi).bestsize) ::
              blocksF a b bj f
                ((flm a b bj alo ahi blo bhi).besti +
                  (flm a b bj alo ahi blo bhi).bestsize) ahi
                ((flm a b bj alo ahi blo bhi).bestj +
                  (flm a b bj alo ahi blo bhi).bestsize) bhi := by
        simp [blocksF, hz]
      rw [heq, sumSizes_append, sumSizes_cons]
      obtain ⟨i1a, i1b⟩ := @blocksF_sum a b bj f alo
        (flm a b bj alo ahi blo bhi).besti blo
        (flm a b bj alo ahi blo bhi).bestj m1 m2
      obtain ⟨i2a, i2b⟩ := @blocksF_sum a b bj f
        ((flm a b bj alo ahi blo bhi).besti + (flm a b bj alo ahi blo bhi).bestsize)
        ahi
        ((flm a b bj alo ahi blo bhi).bestj + (flm a b bj alo ahi blo bhi).bestsize)
        bhi m3 m4
      dsimp only
      constructor <;> omega

theorem matchTotal_le (a b : Str) :
    matchTotal a b ≤ a.length ∧ matchTotal a b ≤ b.length := by
  have h : matchTotal a b =
      sumSizes (blocksF a b (b2j b) (a.length + b.length + 1) 0 a.length 0 b.length) :=
    rfl
  obtain ⟨h1, h2⟩ := @blocksF_sum a b (b2j b)
    (a.length + b.length + 1) 0 a.length 0 b.length (Nat.zero_le _) (Nat.zero_le _)
  omega

theorem ratioQ_nonneg (a b : Str) : 0 ≤ ratioQ a b := by
  unfold ratioQ calcRatioQ
  split
  · apply div_nonneg
    · positivity
    · positivity
  · norm_num

theorem ratioQ_le_one (a b : Str) : ratioQ a b ≤ 1 := by
  unfold ratioQ calcRatioQ
  split
  · rename_i hne
    have hlen : 0 < a.length + b.length := Nat.pos_of_ne_zero hne
    rw [div_le_one (by exact_mod_cast hlen)]
    obtain ⟨h1, h2⟩ := matchTotal_le a b
    have : 2 * matchTotal a b ≤ a.length + b.length := by omega
    push_cast
    exact_mod_cast this
  · exact le_refl 1

/-! ## Properties of `pymax` and `pyIndex` -/

theorem foldMax_spec (t : List ℚ) : ∀ (h : ℚ),
    (t.foldl (fun acc x => if acc < x then x else acc) h = h ∨
      t.foldl (fun acc x => if acc < x then x else acc) h ∈ t) ∧
    h ≤ t.foldl (fun acc x => if acc < x then x else acc) h ∧
    ∀ x ∈ t, x ≤ t.foldl (fun acc x => if acc < x then x else acc) h := by
  induction t with
  | nil =>
    intro h
    exact ⟨Or.inl rfl, le_rfl, by simp⟩
  | cons y ys ih =>
    intro h
    simp only [List.foldl_cons]
    by_cases hlt : h < y
    · simp only [if_pos hlt]
      obtain ⟨m, hle, hall⟩ := ih y
      refine ⟨?_, le_trans (le_of_lt hlt) hle, ?_⟩
      · rcases m with m | m
        · exact Or.inr (by simp [m])
        · exact Or.inr (List.mem_cons_of_mem _ m)
      · intro x hx
        rcases List.mem_cons.mp hx with rfl | hx
        · exact hle
        · exact hall x hx
    · simp only [if_neg hlt]
      obtain ⟨m, hle, hall⟩ := ih h
      refine ⟨?_, hle, ?_⟩
      · rcases m with m | m
        · exact Or.inl m
        · exact Or.inr (List.mem_cons_of_mem _ m)
      · intro x hx
        rcases List.mem_cons.mp hx with rfl | hx
        · exact le_trans (le_of_not_lt hlt) hle
        · exact hall x hx

theorem pymax_mem {l : List ℚ} (h : l ≠ []) : pymax l ∈ l := by
  match l with
  | y :: ys =>
    obtain ⟨m, _, _⟩ := foldMax_spec ys y
    rcases m with m | m
    · rw [pymax, m]; exact List.mem_cons_self _ _
    · rw [pymax]; exact List.mem_cons_of_mem _ m

theorem pymax_ge {l : List ℚ} : ∀ x ∈ l, x ≤ pymax l := by
  match l with
  | [] => intro x hx; cases hx
  | y :: ys =>
    obtain ⟨_, hle, hall⟩ := foldMax_spec ys y
    intro x hx
    rcases List.mem_cons.mp hx with rfl | hx
    · exact hle
    · exact hall x hx

theorem pyIndex_lt {x : ℚ} : ∀ {l : List ℚ}, x ∈ l → pyIndex x l < l.length := by
  intro l
  induction l with
  | nil => intro hx; cases hx
  | cons y ys ih =>
    intro hx
    rw [pyIndex]
    by_cases hyx : y = x
    · simp [hyx]
    · simp only [if_neg hyx, List.length_cons]
      have : x ∈ ys := by
        rcases List.mem_cons.mp hx with rfl | h
        · exact absurd rfl hyx
        · exact h
      exact Nat.succ_lt_succ (ih this)

theorem pyIndex_get {x : ℚ} : ∀ {l : List ℚ}, x ∈ l → l[pyIndex x l]? = some x := by
  intro l
  induction l with
  | nil => intro hx; cases hx
  | cons y ys ih =>
    intro hx
    rw [pyIndex]
    by_cases hyx : y = x
    · simp [hyx]
    · simp only [if_neg hyx, List.getElem?_cons_succ]
      have : x ∈ ys := by
        rcases List.mem_cons.mp hx with rfl | h
        · exact absurd rfl hyx
        · exact h
      exact ih this

theorem pyIndex_min {x : ℚ} : ∀ {l : List ℚ} {j : Nat}, j < pyIndex x l →
    l[j]? ≠ some x := by
  intro l
  induction l with
  | nil =>
    intro j hj
    simp [pyIndex] at hj
  | cons y ys ih =>
    intro j hj
    rw [pyIndex] at hj
    by_cases hyx : y = x
    · rw [if_pos hyx] at hj
      omega
    · rw [if_neg hyx] at hj
      match j with
      | 0 =>
        simp only [List.getElem?_cons_zero]
        intro hcon
        exact hyx (Option.some.inj hcon)
      | j + 1 =>
        simp only [List.getElem?_cons_succ]
        exact ih (by omega)

/-! ## Facts about the Python string helpers -/

theorem dropWhile_head_false {p : Char → Bool} :
    ∀ {l : Str} {x : Char} {l2 : Str}, l.dropWhile p = x :: l2 → p x = false := by
  intro l
  induction l with
  | nil => intro x l2 h; cases h
  | cons y ys ih =>
    intro x l2 h
    by_cases hy : p y
    · rw [List.dropWhile_cons_of_pos hy] at h
      exact ih h
    · rw [List.dropWhile_cons_of_neg hy] at h
      cases h
      exact Bool.eq_false_iff.mpr hy

theorem pyRpartition_spec (sep : Char) (s : Str) :
    (∃ b a2, pyRpartition sep s = (b, [sep], a2) ∧ s = b ++ sep :: a2 ∧ sep ∉ a2) ∨
      (pyRpartition sep s = ([], [], s) ∧ sep ∉ s) := by
  have hsplit := List.takeWhile_append_dropWhile
    (p := fun x => decide (x ≠ sep)) (l := s.reverse)
  unfold pyRpartition
  rw [List.span_eq_take_drop]
  cases hd : s.reverse.dropWhile (fun x => decide (x ≠ sep)) with
  | nil =>
    right
    rw [hd, List.append_nil] at hsplit
    constructor
    · dsimp only
      rw [hsplit, List.reverse_reverse]
    · intro hmem
      have hmem2 : sep ∈ s.reverse.takeWhile (fun x => decide (x ≠ sep)) := by
        rw [hsplit, List.mem_reverse]; exact hmem
      have := List.mem_takeWhile_imp hmem2
      simp at this
  | cons x tl =>
    left
    have hx : x = sep := by
      have := dropWhile_head_false hd
      simpa using this
    rw [hd] at hsplit
    refine ⟨tl.reverse, (s.reverse.takeWhile (fun x => decide (x ≠ sep))).reverse,
      rfl, ?_, ?_⟩
    · calc s = s.reverse.reverse := (List.reverse_reverse s).symm
        _ = (s.reverse.takeWhile (fun x => decide (x ≠ sep)) ++ x :: tl).reverse := by
            rw [hsplit]
        _ = tl.reverse ++ sep ::
              (s.reverse.takeWhile (fun x => decide (x ≠ sep))).reverse := by
            rw [hx, List.reverse_append, List.reverse_cons]
            simp
    · intro hmem
      have hmem2 : sep ∈ s.reverse.takeWhile (fun x => decide (x ≠ sep)) :=
        List.mem_reverse.mp hmem
      have := List.mem_takeWhile_imp hmem2
      simp at this

theorem count_dropWhile_le (p : Char → Bool) (c : Char) (l : Str) :
    (l.dropWhile p).count c ≤ l.count c := by
  conv_rhs => rw [← List.takeWhile_append_dropWhile (p := p) (l := l)]
  rw [List.count_append]
  omega

theorem length_dropWhile_le' (p : Char → Bool) (l : Str) :
    (l.dropWhile p).length ≤ l.length := by
  conv_rhs => rw [← List.takeWhile_append_dropWhile (p := p) (l := l)]
  rw [List.length_append]
  omega

theorem count_pyStrip_le (c : Char) (s : Str) : (pyStrip s).count c ≤ s.count c := by
  unfold pyStrip
  rw [List.count_reverse]
  calc ((s.dropWhile isPySpace).reverse.dropWhile isPySpace).count c
      ≤ (s.dropWhile isPySpace).reverse.count c := count_dropWhile_le _ _ _
    _ = (s.dropWhile isPySpace).count c := List.count_reverse _ _
    _ ≤ s.count c := count_dropWhile_le _ _ _

theorem length_pyStrip_le (s : Str) : (pyStrip s).length ≤ s.length := by
  unfold pyStrip
  rw [List.length_reverse]
  calc ((s.dropWhile isPySpace).reverse.dropWhile isPySpace).length
      ≤ (s.dropWhile isPySpace).reverse.length := length_dropWhile_le' _ _
    _ = (s.dropWhile isPySpace).length := List.length_reverse _
    _ ≤ s.length := length_dropWhile_le' _ _

theorem count_dropLast_le (c : Char) (l : Str) :
    (l.dropLast).count c ≤ l.count c :=
  List.Sublist.count_le (List.dropLast_sublist l) c

/-! ## The balance loop of `parse_title_series` never exhausts its fuel -/

theorem balanceLoop_isSome : ∀ (fuel : Nat) (t si : Str),
    si.count '(' ≤ si.count ')' →
    2 * t.length + (si.count ')' - si.count '(') < fuel →
    (balanceLoop fuel t si).isSome
  | 0, _, _, _, hf => absurd hf (by omega)
  | fuel + 1, t, si, hinv, hf => by
    have heq : balanceLoop (fuel + 1) t si =
        if si.count ')' ≠ si.count '(' then
          balanceLoop fuel (pyStrip (pyRpartition '(' t).1)
            ((pyRpartition '(' t).2.2 ++ '(' :: si)
        else some (t, si) := rfl
    rw [heq]
    by_cases hg : si.count ')' ≠ si.count '('
    · rw [if_pos hg]
      have holt : si.count '(' < si.count ')' := by omega
      rcases pyRpartition_spec '(' t with ⟨b, a2, hpr, hts, hna⟩ | ⟨hpr, hnt⟩
      · rw [hpr]
        dsimp only
        have hc0 : a2.count '(' = 0 := List.count_eq_zero.mpr hna
        have hcp : a2.count ')' ≤ a2.length := List.count_le_length _ _
        have hlb : (pyStrip b).length ≤ b.length := length_pyStrip_le b
        have hlen : t.length = b.length + 1 + a2.length := by
          rw [hts]; simp; omega
        have hA : (a2 ++ '(' :: si).count '(' = si.count '(' + 1 := by
          simp [List.count_append, List.count_cons, hc0]
        have hB : (a2 ++ '(' :: si).count ')' = a2.count ')' + si.count ')' := by
          simp [List.count_append, List.count_cons]
        apply balanceLoop_isSome fuel
        · rw [hA, hB]; omega
        · rw [hA, hB]; omega
      · rw [hpr]
        dsimp only
        have hc0 : t.count '(' = 0 := List.count_eq_zero.mpr hnt
        have hcp : t.count ')' ≤ t.length := List.count_le_length _ _
        have hA : (t ++ '(' :: si).count '(' = si.count '(' + 1 := by
          simp [List.count_append, List.count_cons, hc0]
        have hB : (t ++ '(' :: si).count ')' = t.count ')' + si.count ')' := by
          simp [List.count_append, List.count_cons]
        apply balanceLoop_isSome fuel
        · rw [hA, hB]; omega
        · rw [hA, hB]
          have h0 : (pyStrip ([] : Str)).length = 0 := rfl
          rw [h0]
          omega
    · rw [if_neg hg]
      simp

theorem titleSeriesCoreO_isSome (t : Str) : (titleSeriesCoreO t).isSome := by
  unfold titleSeriesCoreO
  by_cases hf : (t.findIdx? (fun x => x = '(')).isNone
  · rw [if_pos hf]
    simp
  · rw [if_neg hf]
    by_cases hh : pyFindI '#' (pyRpartition '(' t).2.2 ≤ 0
    · rw [if_pos hh]
      simp
    · rw [if_neg hh]
      rcases pyRpartition_spec '(' t with ⟨b, a2, hpr, hts, hna⟩ | ⟨hpr, hnt⟩
      · rw [hpr]
        dsimp only
        have hna2 : '(' ∉ a2.dropLast := fun hm =>
          hna (List.dropLast_sublist a2 |>.mem hm)
        have hc0 : (a2.dropLast).count '(' = 0 := List.count_eq_zero.mpr hna2
        have hsome := balanceLoop_isSome (titleSeriesFuel b a2.dropLast) b
          a2.dropLast (by omega) (by unfold titleSeriesFuel; omega)
        cases hb : balanceLoop (titleSeriesFuel b a2.dropLast) b a2.dropLast with
        | none => rw [hb] at hsome; simp at hsome
        | some pr =>
          obtain ⟨t1, s2⟩ := pr
          dsimp only
          by_cases ht2 : truthyS s2
          · rw [if_pos ht2]
            cases pyFloat (seriesIndexStr s2) with
            | none => simp
            | some q => simp
          · rw [if_neg ht2]
            rfl
      · exfalso
        apply hf
        simp only [Option.isNone_iff_eq_none, List.findIdx?_eq_none_iff]
        intro x hx
        simp only [decide_eq_false_iff_not]
        intro hxe
        exact hnt (hxe ▸ hx)

/-! ## Pointwise behaviour of the translator-marking loop -/

theorem markLoop_spec : ∀ (fuel : Nat) (l : List Str) (i stop : Nat),
    fuel = stop - i → stop ≤ l.length →
    ∃ l2, markLoop fuel l i stop = some l2 ∧ l2.length = l.length ∧
      ∀ n : Nat, l2[n]? =
        if i ≤ n ∧ n < stop then (l[n]?.map (fun s => s ++ translatorMarker))
        else l[n]?
  | 0, l, i, stop, hf, _ => by
    refine ⟨l, rfl, rfl, fun n => ?_⟩
    have : ¬ (i ≤ n ∧ n < stop) := by omega
    rw [if_neg this]
  | fuel + 1, l, i, stop, hf, hlen => by
    have hi : i < stop := by omega
    have hil : i < l.length := by omega
    have heq : markLoop (fuel + 1) l i stop =
        if i < stop then
          if h : i < l.length then
            markLoop fuel (l.set i (l.get ⟨i, h⟩ ++ translatorMarker)) (i + 1) stop
          else none
        else some l := rfl
    rw [heq, if_pos hi, dif_pos hil]
    obtain ⟨l2, hm, hl2, hpt⟩ := markLoop_spec fuel
      (l.set i (l.get ⟨i, hil⟩ ++ translatorMarker)) (i + 1) stop
      (by omega) (by rw [List.length_set]; omega)
    refine ⟨l2, hm, by rw [hl2, List.length_set], fun n => ?_⟩
    rw [hpt n]
    by_cases hn : n = i
    · rw [hn]
      rw [if_neg (by omega : ¬ (i + 1 ≤ i ∧ i < stop)), if_pos ⟨le_rfl, hi⟩]
      rw [List.getElem?_set_self hil]
      rw [List.getElem?_eq_getElem hil]
      simp [List.get_eq_getElem]
    · rw [List.getElem?_set_ne (by omega : i ≠ n)]
      by_cases hrange : i + 1 ≤ n ∧ n < stop
      · rw [if_pos hrange, if_pos (by omega : i ≤ n ∧ n < stop)]
      · rw [if_neg hrange, if_neg (by omega : ¬ (i ≤ n ∧ n < stop))]

/-! ## The `parse_isbn` accumulator -/

theorem isbnLoop_all_none : ∀ (ns : List Str) (acc : Option Str),
    (∀ n ∈ ns, isbnScan (pyStrip n) = none) → isbnLoop ns acc = acc
  | [], _, _ => rfl
  | n :: ns, acc, h => by
    have hn : isbnScan (pyStrip n) = none := h n (List.mem_cons_self _ _)
    have heq : isbnLoop (n :: ns) acc =
        isbnLoop ns (match isbnScan (pyStrip n) with
          | some m => some m
          | none => acc) := rfl
    rw [heq, hn]
    exact isbnLoop_all_none ns acc (fun x hx => h x (List.mem_cons_of_mem _ hx))

theorem isbnLoop_last_match : ∀ (pre : List Str) (n : Str) (post : List Str)
    (acc : Option Str) (m : Str), isbnScan (pyStrip n) = some m →
    (∀ x ∈ post, isbnScan (pyStrip x) = none) →
    isbnLoop (pre ++ n :: post) acc = some m
  | [], n, post, acc, m, hm, hpost => by
    have heq : isbnLoop ([] ++ n :: post) acc =
        isbnLoop post (match isbnScan (pyStrip n) with
          | some x => some x
          | none => acc) := rfl
    rw [heq, hm]
    exact isbnLoop_all_none post (some m) hpost
  | p :: pre, n, post, acc, m, hm, hpost => by
    have heq : isbnLoop ((p :: pre) ++ n :: post) acc =
        isbnLoop (pre ++ n :: post) (match isbnScan (pyStrip p) with
          | some x => some x
          | none => acc) := rfl
    rw [heq]
    exact isbnLoop_last_match pre n post _ m hm hpost

/-! ## C6 — cover content-length threshold -/

/-- C6: the cover-URL extractor returns a URL (non-absent) only when the
content-length probe reports strictly more than 1000 bytes; when the probe
reports at most 1000 bytes the cover is treated as absent. -/
theorem C6_cover_threshold (env : WEnv) (page : Page) :
    (∀ u, parse_cover env page = .ok (some u) →
      ∃ n, env.probe u = .ok n ∧ 1000 < n) ∧
    (∀ u n, page.ogImage.head? = some u → env.probe u = .ok n → n ≤ 1000 →
      parse_cover env page = .ok none) := by
  constructor
  · intro u h
    unfold parse_cover at h
    cases hh : page.ogImage.head? with
    | none => rw [hh] at h; simp at h
    | some u2 =>
      rw [hh] at h
      dsimp only at h
      cases hp : env.probe u2 with
      | error e => rw [hp] at h; simp at h
      | ok n =>
        rw [hp] at h
        dsimp only at h
        by_cases hn : 1000 < n
        · rw [if_pos hn] at h
          have hu : u2 = u := by
            have := Option.some.inj (by injection h)
            exact this
          exact ⟨n, hu ▸ hp, hn⟩
        · rw [if_neg hn] at h
          simp at h
  · intro u n hh hp hn
    unfold parse_cover
    rw [hh]
    dsimp only
    rw [hp]
    dsimp only
    rw [if_neg (by omega)]

/-- Witness for C6 at a concrete page and probe. -/
theorem C6_cover_threshold_witness :
    parse_cover smallCoverEnv samplePage = .ok none :=
  (C6_cover_threshold smallCoverEnv samplePage).2 "http://img" 500 rfl rfl
    (by decide)

/-! ## C8 — the Worker run boundary -/

theorem parse_details_len (env : WEnv) (cfg : Cfg) (page : Page) :
    ∀ l, parse_details env cfg page = .ok l → l.length ≤ 1 := by
  intro l h
  unfold parse_details at h
  split at h
  · cases h; simp
  · cases hc : env.cleanHook (builtRecord env cfg page) with
    | error e => rw [hc] at h; cases h
    | ok mi2 => rw [hc] at h; cases h; simp

/-- C8: a Worker run publishes at most one record (exactly one on full
success, zero on any failure), and every exception escaping `get_details`
or `parse_details` is caught at the `run()` boundary and converted to a
logged no-op (an empty publish list). -/
theorem C8_worker_boundary (env : WEnv) (cfg : Cfg) :
    (workerRun env cfg).length ≤ 1 ∧
    (∀ e, get_details env cfg = .error e → workerRun env cfg = []) ∧
    (∀ l, get_details env cfg = .ok l → workerRun env cfg = l ∧ l.length ≤ 1) := by
  have hlen : ∀ l, get_details env cfg = .ok l → l.length ≤ 1 := by
    intro l h
    unfold get_details at h
    cases hf : env.fetch with
    | err404 => rw [hf] at h; cases h; simp
    | timeout => rw [hf] at h; cases h; simp
    | otherErr => rw [hf] at h; cases h; simp
    | emptyBody => rw [hf] at h; cases h; simp
    | badParse => rw [hf] at h; cases h; simp
    | ok page =>
      rw [hf] at h
      dsimp only at h
      split at h
      · cases h; simp
      · exact parse_details_len env cfg page l h
  refine ⟨?_, ?_, ?_⟩
  · unfold workerRun
    cases hg : get_details env cfg with
    | error e => simp
    | ok l => exact hlen l hg
  · intro e hg
    unfold workerRun
    rw [hg]
  · intro l hg
    unfold workerRun
    rw [hg]
    exact ⟨rfl, hlen l hg⟩

/-- Witness for C8: a raising cleanup hook yields an empty publish list. -/
theorem C8_worker_boundary_witness :
    workerRun failingCleanEnv sampleCfg = [] :=
  (C8_worker_boundary failingCleanEnv sampleCfg).2.1 () rfl

/-! ## C2 — mandatory fields gate the record; optional fields only degrade -/

/-- C2: provided the host cleanup hook does not itself raise,
`parse_details` publishes exactly one record iff all three mandatory
fields (truthy title, nonempty author list, truthy ridibooks identifier)
were extracted, and publishes nothing (returning normally) otherwise —
regardless of the outcome of every other field parser, whose failures only
degrade their own field inside `builtRecord`. -/
theorem C2_mandatory_fields (env : WEnv) (cfg : Cfg) (page : Page)
    (hclean : ∀ m, ∃ m2, env.cleanHook m = .ok m2) :
    (mandatoryOk env cfg page = true →
      ∃ m, parse_details env cfg page = .ok [m] ∧
        env.cleanHook (builtRecord env cfg page) = .ok m) ∧
    (mandatoryOk env cfg page = false → parse_details env cfg page = .ok []) := by
  have hiff : (truthyOS (parse_title_series page.ogTitle).title ∧
      ¬ (authorsOf cfg page).isEmpty ∧ truthyOS (ridOf env)) ↔
      mandatoryOk env cfg page = true := by
    unfold mandatoryOk
    simp [Bool.and_eq_true, and_assoc]
  constructor
  · intro hm
    unfold parse_details
    rw [if_neg (by rw [not_not]; exact hiff.mpr hm)]
    obtain ⟨m2, hc⟩ := hclean (builtRecord env cfg page)
    rw [hc]
    exact ⟨m2, rfl, rfl⟩
  · intro hm
    unfold parse_details
    rw [if_pos (fun hcon => by rw [hiff.mp hcon] at hm; cases hm)]

/-- Witness for C2 at a fully healthy page and environment. -/
theorem C2_mandatory_fields_witness :
    ∃ m, parse_details sampleEnv sampleCfg samplePage = .ok [m] ∧
      sampleEnv.cleanHook (builtRecord sampleEnv sampleCfg samplePage) = .ok m :=
  (C2_mandatory_fields sampleEnv sampleCfg samplePage (fun m => ⟨m, rfl⟩)).1
    (by decide)

/-! ## C9 — a missing role label fails the whole record -/

/-- C9: when the author block is present and lists authors but its role
labels do not contain both `저` (author) and `역` (translator),
`parse_authors` raises, the caught exception leaves the author list
empty, and — authors being mandatory — `parse_details` publishes
nothing. -/
theorem C9_missing_role_label (env : WEnv) (cfg : Cfg) (page : Page)
    (w : WriterNode) (hw : page.metadataWriter = some w)
    (hauth : w.authors ≠ [])
    (hrole : (w.roles.map normRole).findIdx? (fun r => r = "저".data) = none ∨
      (w.roles.map normRole).findIdx? (fun r => r = "역".data) = none) :
    parse_authors cfg page = .error () ∧ parse_details env cfg page = .ok [] := by
  have hpa : parse_authors cfg page = .error () := by
    unfold parse_authors
    rw [hw]
    dsimp only
    rw [if_neg (fun hcon => hauth hcon.1)]
    rcases hrole with h | h
    · rw [h]
    · rw [h]
      cases h2 : (w.roles.map normRole).findIdx? (fun r => r = "저".data) <;> rfl
  refine ⟨hpa, ?_⟩
  have hao : authorsOf cfg page = [] := by
    unfold authorsOf
    rw [hpa]
  unfold parse_details
  rw [if_pos]
  intro hcon
  rw [hao] at hcon
  exact hcon.2.1 rfl

/-- Witness for C9: a page with authors but no translator label publishes
nothing. -/
theorem C9_missing_role_label_witness :
    parse_authors sampleCfg noTranslatorPage = .error () ∧
      parse_details sampleEnv sampleCfg noTranslatorPage = .ok [] :=
  C9_missing_role_label sampleEnv sampleCfg noTranslatorPage ⟨["A".data], ["저".data]⟩
    rfl (by decide) (Or.inr (by decide))

/-! ## C5 — ISBN extraction: last matching node wins, not the first -/

/-- Counterexample to C5 as stated: with two identifier nodes each holding
a 10-character `[0-9A-Z]` run, the first match across the nodes is the
first node's run, but `parse_isbn` returns the *last* matching node's run
(each successful per-node scan overwrites `isbn_text`). -/
theorem C5_isbn_counterexample :
    parse_isbn isbnCexPage = .ok "1234567890".data ∧
      isbnFirstMatch isbnCexPage.isbnContents = some "ABCDEFGHIJ".data ∧
      "1234567890".data ≠ "ABCDEFGHIJ".data :=
  ⟨by decide, by decide, by decide⟩

/-- C5 (amended): when at least one identifier node contains a run of 10+
`[0-9A-Z]` characters, `parse_isbn` returns the leftmost such run of the
*last* node containing one (stripped — a no-op on such runs). -/
theorem C5_isbn_last_node (page : Page) (pre : List Str) (n : Str)
    (post : List Str) (m : Str) (hsplit : page.isbnContents = pre ++ n :: post)
    (hm : isbnScan (pyStrip n) = some m)
    (hpost : ∀ x ∈ post, isbnScan (pyStrip x) = none) :
    parse_isbn page = .ok (pyStrip m) := by
  unfold parse_isbn
  rw [hsplit, isbnLoop_last_match pre n post none m hm hpost]

/-- Witness for the amended C5 at the two-node page. -/
theorem C5_isbn_last_node_witness :
    parse_isbn isbnCexPage = .ok (pyStrip "1234567890".data) :=
  C5_isbn_last_node isbnCexPage ["ABCDEFGHIJ".data] "1234567890".data []
    "1234567890".data (by decide) (by decide)
    (fun x hx => absurd hx (List.not_mem_nil x))

/-! ## C10 — a '#' at the start of the bracketed suffix means no split -/

/-- C10: when the display title's last `(` is immediately followed by `#`,
the splitter returns the whole original (stripped) string as the title
with no series and no index — `hash_pos <= 0` treats position 0 like
absence. -/
theorem C10_leading_hash (t : Str)
    (hfound : (t.findIdx? (fun x => x = '(')).isNone = false)
    (hhead : ((pyRpartition '(' t).2.2).head? = some '#') :
    titleSeriesCore t = ⟨some (pyStrip t), none, none⟩ := by
  unfold titleSeriesCore titleSeriesCoreO
  rw [if_neg (by rw [hfound]; exact Bool.false_ne_true)]
  have hhash : pyFindI '#' (pyRpartition '(' t).2.2 = 0 := by
    cases ha : (pyRpartition '(' t).2.2 with
    | nil => rw [ha] at hhead; cases hhead
    | cons c rest =>
      rw [ha] at hhead
      have hc : c = '#' := Option.some.inj hhead
      unfold pyFindI
      rw [List.findIdx?_cons]
      simp [hc]
  rw [if_pos (by rw [hhash])]
  rfl

/-- Witness for C10 at `"Foo (#1-3)"`. -/
theorem C10_leading_hash_witness :
    titleSeriesCore "Foo (#1-3)".data =
      ⟨some (pyStrip "Foo (#1-3)".data), none, none⟩ :=
  C10_leading_hash "Foo (#1-3)".data (by decide) (by decide)

/-! ## C3 — the title/series example table and the ValueError fallback -/

/-- C3: the splitter reproduces the spec's example table — `"Foo"` keeps
the whole title with no series; `"Foo (Omnibus)"` has no `#` so no split;
`"Foo (Bar #3)"` gives (Foo, Bar, 3.0); `"Foo (Bar #1-5)"` takes the
leading number of the range; `"Foo (Omnibus) (Bar #1)"` keeps the earlier
bracket inside the title — and, in general, whenever the candidate series
index does not convert to a number (`float` raises `ValueError`), the
original full string is used as the title with no series. -/
theorem C3_title_series_table :
    titleSeriesCore "Foo".data = ⟨some "Foo".data, none, none⟩ ∧
    titleSeriesCore "Foo (Omnibus)".data =
      ⟨some "Foo (Omnibus)".data, none, none⟩ ∧
    titleSeriesCore "Foo (Bar #3)".data =
      ⟨some "Foo".data, some "Bar".data, some 3⟩ ∧
    titleSeriesCore "Foo (Bar #1-5)".data =
      ⟨some "Foo".data, some "Bar".data, some 1⟩ ∧
    titleSeriesCore "Foo (Omnibus) (Bar #1)".data =
      ⟨some "Foo (Omnibus)".data, some "Bar".data, some 1⟩ ∧
    ∀ (t b a2 t1 s2 : Str), pyRpartition '(' t = (b, "(".data, a2) →
      0 < pyFindI '#' a2 →
      balanceLoop (titleSeriesFuel b a2.dropLast) b a2.dropLast = some (t1, s2) →
      s2 ≠ [] → pyFloat (seriesIndexStr s2) = none →
      titleSeriesCore t = ⟨some (pyStrip t), none, none⟩ := by
  have hf1 : pyFloat "3".data = some 3 := by
    simp [pyFloat, show pyFloatND "3".data = some (3, 1) from by decide]
  have hf2 : pyFloat "1".data = some 1 := by
    simp [pyFloat, show pyFloatND "1".data = some (1, 1) from by decide]
  refine ⟨by decide, by decide, ?_, ?_, ?_, ?_⟩
  · have h : titleSeriesCore "Foo (Bar #3)".data =
        ⟨some "Foo".data, some "Bar".data, pyFloat "3".data⟩ := rfl
    rw [h, hf1]
  · have h : titleSeriesCore "Foo (Bar #1-5)".data =
        ⟨some "Foo".data, some "Bar".data, pyFloat "1".data⟩ := rfl
    rw [h, hf2]
  · have h : titleSeriesCore "Foo (Omnibus) (Bar #1)".data =
        ⟨some "Foo (Omnibus)".data, some "Bar".data, pyFloat "1".data⟩ := rfl
    rw [h, hf2]
  · intro t b a2 t1 s2 hpr hhash hbal hs2 hfl
    have hts : t = b ++ '(' :: a2 := by
      rcases pyRpartition_spec '(' t with ⟨b2, a3, hpr2, hts2, _⟩ | ⟨hpr2, _⟩
      · rw [hpr] at hpr2
        simp only [Prod.mk.injEq] at hpr2
        obtain ⟨hb, -, ha⟩ := hpr2
        rw [hts2, ← hb, ← ha]
      · rw [hpr] at hpr2
        simp only [Prod.mk.injEq] at hpr2
        exact absurd hpr2.2.1 (by decide)
    have hmem : '(' ∈ t := by
      rw [hts]
      exact List.mem_append_right _ (List.mem_cons_self _ _)
    have hO : titleSeriesCoreO t = some ⟨some (pyStrip t), none, none⟩ := by
      unfold titleSeriesCoreO
      rw [if_neg]
      · rw [hpr]
        dsimp only
        rw [if_neg (by omega)]
        rw [hbal]
        dsimp only
        rw [if_pos (by simp [truthyS, hs2]), hfl]
      · intro hnone
        rw [Option.isNone_iff_eq_none, List.findIdx?_eq_none_iff] at hnone
        have := hnone '(' hmem
        simp at this
    unfold titleSeriesCore
    rw [hO]
    rfl

/-- Witness for the general clause of C3 at `"Foo (Bar #x)"` (the series
index `"x"` does not convert). -/
theorem C3_title_series_table_witness :
    titleSeriesCore "Foo (Bar #x)".data =
      ⟨some (pyStrip "Foo (Bar #x)".data), none, none⟩ :=
  C3_title_series_table.2.2.2.2.2 "Foo (Bar #x)".data "Foo ".data
    "Bar #x)".data "Foo ".data "Bar #x".data (by decide) (by decide) (by decide)
    (by decide)
    (by simp [pyFloat,
      show pyFloatND (seriesIndexStr "Bar #x".data) = none from by decide])

/-! ## C7 — translator marking bounded by the role-label indices -/

/-- C7: when the normalised role labels contain `저` first at index `k` and
`역` first at index `m` with `k < m` (and index `m` exists in the author
list), exactly the names at positions `k+1 .. m` receive the translator
suffix and no name at a position `≤ k` does; with the all-authors flag off
only positions `0 .. k-1` are returned (unmarked), and with it on the full
marked list is returned. -/
theorem C7_translator_marking (cfg : Cfg) (page : Page) (w : WriterNode)
    (k m : Nat) (hw : page.metadataWriter = some w)
    (hk : (w.roles.map normRole).findIdx? (fun r => r = "저".data) = some k)
    (hm : (w.roles.map normRole).findIdx? (fun r => r = "역".data) = some m)
    (_hord : k < m) (hlen : m < w.authors.length) :
    (cfg.getAllAuthors = true →
      ∃ marked, parse_authors cfg page = .ok marked ∧
        marked.length = w.authors.length ∧
        ∀ n : Nat, marked[n]? =
          if k + 1 ≤ n ∧ n ≤ m then
            (w.authors[n]?.map (fun s => s ++ translatorMarker))
          else w.authors[n]?) ∧
    (cfg.getAllAuthors = false →
      parse_authors cfg page = .ok (w.authors.take k)) := by
  have hroles : w.roles ≠ [] := by
    intro hcon
    rw [hcon] at hk
    cases hk
  obtain ⟨l2, hml, hlen2, hpt⟩ := markLoop_spec (m + 1 - (k + 1)) w.authors
    (k + 1) (m + 1) rfl (by omega)
  have hpa : parse_authors cfg page =
      .ok (if cfg.getAllAuthors then l2 else l2.take k) := by
    unfold parse_authors
    rw [hw]
    dsimp only
    rw [if_neg (fun hcon => hroles hcon.2)]
    rw [hk, hm]
    dsimp only
    have hmr : markRange w.authors (k + 1) (m + 1) = some l2 := hml
    rw [hmr]
  constructor
  · intro hflag
    rw [hflag] at hpa
    simp only [if_pos rfl] at hpa
    refine ⟨l2, hpa, hlen2, fun n => ?_⟩
    rw [hpt n]
    by_cases hc : k + 1 ≤ n ∧ n ≤ m
    · rw [if_pos (by omega : k + 1 ≤ n ∧ n < m + 1), if_pos hc]
    · rw [if_neg (by omega : ¬ (k + 1 ≤ n ∧ n < m + 1)), if_neg hc]
  · intro hflag
    rw [hflag] at hpa
    simp only [Bool.false_eq_true, if_neg, if_false] at hpa
    have htake : l2.take k = w.authors.take k := by
      apply List.ext_getElem?
      intro n
      by_cases hn : n < k
      · rw [List.getElem?_take_of_lt hn, List.getElem?_take_of_lt hn, hpt n,
          if_neg (by omega)]
      · have h1 : (l2.take k)[n]? = none :=
          List.getElem?_eq_none (by simp [List.length_take]; omega)
        have h2 : (w.authors.take k)[n]? = none :=
          List.getElem?_eq_none (by simp [List.length_take]; omega)
        rw [h1, h2]
    rw [htake] at hpa
    exact hpa

/-- Witness for C7 at the sample page (`k = 0`, `m = 1`, flag on). -/
theorem C7_translator_marking_witness :
    ∃ marked, parse_authors sampleCfg samplePage = .ok marked ∧
      marked.length = (["A".data, "B".data] : List Str).length ∧
      ∀ n : Nat, marked[n]? =
        if 0 + 1 ≤ n ∧ n ≤ 1 then
          ((["A".data, "B".data] : List Str)[n]?.map
            (fun s => s ++ translatorMarker))
        else (["A".data, "B".data] : List Str)[n]? :=
  (C7_translator_marking sampleCfg samplePage ⟨["A".data, "B".data],
    ["저".data, "역".data]⟩ 0 1 rfl (by decide) (by decide) (by decide)
    (by decide)).1 rfl

/-! ## C4 — the no-identifier retry happens at most once, only from the
zero-candidate search path -/

theorem identifyNoRetry_count (env : IdEnv) (abort : Bool)
    (title : Option String) (authors : List String) :
    retryCount (identifyNoRetry env abort title authors) = 0 := by
  unfold identifyNoRetry identifyBody
  have hrid : getIdentifier ([] : List (String × String)) "ridibooks" = none := rfl
  rw [hrid]
  rw [if_neg (by simp [truthyOStr])]
  by_cases hq : ¬ (truthyTitle title ∨ authors ≠ [])
  · rw [if_pos hq]; rfl
  · rw [if_neg hq]
    cases hs : env.search 1 with
    | fetchError => rfl
    | emptyRaw => rfl
    | parseError => rfl
    | parsed entries =>
      dsimp only
      by_cases hab : abort = true
      · rw [if_pos hab]; rfl
      · rw [if_neg hab]
        by_cases hms : (searchMatches env.titleTokens env.authorTokens entries).isEmpty = true
        · rw [if_pos hms]
          rw [if_neg (by intro hcon; exact hcon.1 rfl)]
          rfl
        · rw [if_neg hms]; rfl

/-- C4: (a) a truthy ridibooks identifier takes the direct path — exactly
one candidate URL built from the identifier (rank 0, the only list
position), no search, hence never a retry, whatever any Worker later does
with that candidate; (b) a retry result occurs exactly when the search
path ran to completion (no abort) with zero candidate URLs while the
caller supplied a nonempty identifier dict, a truthy title and authors —
and the retried instance runs with the identifiers cleared; (c) no result
ever contains more than one nested retry. -/
theorem C4_identify_retry (env : IdEnv) (abort : Bool)
    (ids : List (String × String)) (title : Option String)
    (authors : List String) :
    (truthyOStr (getIdentifier ids "ridibooks") = true →
      identify env abort ids title authors =
        if abort then .aborted
        else .spawned [detailUrl ((getIdentifier ids "ridibooks").getD "")]) ∧
    (∀ r, identify env abort ids title authors = .retried r ↔
      (truthyOStr (getIdentifier ids "ridibooks") = false ∧ abort = false ∧
        (∃ entries, env.search 0 = .parsed entries ∧
          searchMatches env.titleTokens env.authorTokens entries = []) ∧
        ids ≠ [] ∧ truthyTitle title = true ∧ authors ≠ [] ∧
        r = identifyNoRetry env abort title authors)) ∧
    retryCount (identify env abort ids title authors) ≤ 1 := by
  have ha : truthyOStr (getIdentifier ids "ridibooks") = true →
      identify env abort ids title authors =
        if abort then .aborted
        else .spawned [detailUrl ((getIdentifier ids "ridibooks").getD "")] := by
    intro h
    unfold identify identifyBody
    rw [if_pos h]
  have hb : ∀ r, identify env abort ids title authors = .retried r ↔
      (truthyOStr (getIdentifier ids "ridibooks") = false ∧ abort = false ∧
        (∃ entries, env.search 0 = .parsed entries ∧
          searchMatches env.titleTokens env.authorTokens entries = []) ∧
        ids ≠ [] ∧ truthyTitle title = true ∧ authors ≠ [] ∧
        r = identifyNoRetry env abort title authors) := by
    intro r
    by_cases hrid : truthyOStr (getIdentifier ids "ridibooks") = true
    · rw [ha hrid]
      constructor
      · intro h
        by_cases hab : abort = true
        · rw [if_pos hab] at h; cases h
        · rw [if_neg hab] at h; cases h
      · intro ⟨hfalse, _⟩
        rw [hrid] at hfalse
        cases hfalse
    · have hridf : truthyOStr (getIdentifier ids "ridibooks") = false :=
        Bool.not_eq_true _ ▸ (by simpa using hrid)
      unfold identify identifyBody
      rw [if_neg hrid]
      by_cases hq : ¬ (truthyTitle title ∨ authors ≠ [])
      · rw [if_pos hq]
        constructor
        · intro h; cases h
        · intro ⟨_, _, _, _, htt, hau, _⟩
          exact absurd (Or.inl htt) hq
      · rw [if_neg hq]
        cases hs : env.search 0 with
        | fetchError =>
          constructor
          · intro h; cases h
          · intro ⟨_, _, ⟨entries, hcon, _⟩, _⟩
            cases hcon
        | emptyRaw =>
          constructor
          · intro h; cases h
          · intro ⟨_, _, ⟨entries, hcon, _⟩, _⟩
            cases hcon
        | parseError =>
          constructor
          · intro h; cases h
          · intro ⟨_, _, ⟨entries, hcon, _⟩, _⟩
            cases hcon
        | parsed entries =>
          dsimp only
          by_cases hab : abort = true
          · rw [if_pos hab]
            constructor
            · intro h; cases h
            · intro ⟨_, habf, _⟩
              rw [hab] at habf; cases habf
          · rw [if_neg hab]
            by_cases hms :
                (searchMatches env.titleTokens env.authorTokens entries).isEmpty = true
            · rw [if_pos hms]
              by_cases hre : ids ≠ [] ∧ truthyTitle title = true ∧ authors ≠ []
              · rw [if_pos hre]
                constructor
                · intro h
                  cases h
                  exact ⟨hridf, by simpa using hab,
                    ⟨entries, rfl, List.isEmpty_iff.mp hms⟩, hre.1, hre.2.1,
                    hre.2.2, rfl⟩
                · intro ⟨_, _, _, _, _, _, hr⟩
                  rw [hr]
              · rw [if_neg hre]
                constructor
                · intro h; cases h
                · intro ⟨_, _, _, h4, h5, h6, _⟩
                  exact absurd ⟨h4, h5, h6⟩ hre
            · rw [if_neg hms]
              constructor
              · intro h; cases h
              · intro ⟨_, _, ⟨entries2, hs2, hempty⟩, _⟩
                cases hs2
                rw [hempty] at hms
                exact absurd rfl hms
  refine ⟨ha, hb, ?_⟩
  cases hres : identify env abort ids title authors with
  | retried r =>
    have := (hb r).mp hres
    rw [this.2.2.2.2.2.2]
    unfold retryCount
    rw [identifyNoRetry_count]
  | insufficient => exact Nat.zero_le 1
  | queryFailed => exact Nat.zero_le 1
  | emptyResult => exact Nat.zero_le 1
  | searchParseFailed => exact Nat.zero_le 1
  | aborted => exact Nat.zero_le 1
  | noMatches => exact Nat.zero_le 1
  | spawned urls => exact Nat.zero_le 1

/-- Witness for C4: a supplied ridibooks identifier resolves directly to
the single candidate URL at rank 0. -/
theorem C4_identify_retry_witness :
    identify sampleIdEnv false [("ridibooks", "593000535")] (some "X") ["Y"] =
      .spawned ["http://ridibooks.com/v2/Detail?id=593000535"] := by
  have h := (C4_identify_retry sampleIdEnv false [("ridibooks", "593000535")]
    (some "X") ["Y"]).1 (by decide)
  rw [if_neg Bool.false_ne_true] at h
  rw [show (getIdentifier [("ridibooks", "593000535")] "ridibooks").getD "" =
    "593000535" from rfl] at h
  exact h

/-! ## C1 — the similarity matcher -/

/-- C1 (amended): for every nonempty entry list the matcher satisfies
`MatcherSpec` — it returns the first entry of maximal combined score
(title similarity times *space-stripped* author similarity), never
synthesizing a result, with all scores in `[0, 1]` and zero author
similarity zeroing the product. -/
theorem C1_matcher_amended (ttoks atoks : List Str) (entries : List SRE)
    (hne : entries ≠ []) : MatcherSpec ttoks atoks entries := by
  cases entries with
  | nil => exact absurd rfl hne
  | cons e0 es =>
    set sims := (e0 :: es).map (combinedScore ttoks atoks) with hsims
    have hsne : sims ≠ [] := by simp [hsims]
    have hmaxmem : pymax sims ∈ sims := pymax_mem hsne
    have hidx : pyIndex (pymax sims) sims < sims.length := pyIndex_lt hmaxmem
    have hlen : sims.length = (e0 :: es).length := by
      rw [hsims, List.length_map]
    have hidx2 : pyIndex (pymax sims) sims < (e0 :: es).length := by omega
    have hget : sims[pyIndex (pymax sims) sims]? = some (pymax sims) :=
      pyIndex_get hmaxmem
    have hmap : ∀ j : Nat, sims[j]? =
        ((e0 :: es)[j]?).map (combinedScore ttoks atoks) := by
      intro j
      rw [hsims, List.getElem?_map]
    have hscore :
        combinedScore ttoks atoks ((e0 :: es)[pyIndex (pymax sims) sims]) =
          pymax sims := by
      have h1 := hmap (pyIndex (pymax sims) sims)
      rw [hget, List.getElem?_eq_getElem hidx2] at h1
      exact (Option.some.inj h1).symm
    refine ⟨pyIndex (pymax sims) sims, (e0 :: es)[pyIndex (pymax sims) sims],
      hidx2, List.getElem?_eq_getElem hidx2, ?_, ?_, ?_, ?_, ?_⟩
    · have hps : parseSearchResults ttoks atoks (e0 :: es) =
          (e0 :: es)[pyIndex (pymax sims) sims]? := by
        rw [parseSearchResults, hsims]
      rw [hps, List.getElem?_eq_getElem hidx2]
    · intro j ej hj
      have h1 := hmap j
      rw [hj] at h1
      have h2 : sims[j]? = some (combinedScore ttoks atoks ej) := by
        rw [h1]; rfl
      have hmem : combinedScore ttoks atoks ej ∈ sims := List.getElem?_mem h2
      rw [hscore]
      exact pymax_ge _ hmem
    · intro j ej hlt hj
      have h1 := hmap j
      rw [hj] at h1
      have h2 : sims[j]? = some (combinedScore ttoks atoks ej) := by
        rw [h1]; rfl
      have hne2 : sims[j]? ≠ some (pymax sims) := pyIndex_min hlt
      have hnemax : combinedScore ttoks atoks ej ≠ pymax sims := by
        intro hcon
        rw [h2, hcon] at hne2
        exact hne2 rfl
      have hmem : combinedScore ttoks atoks ej ∈ sims := List.getElem?_mem h2
      rw [hscore]
      exact lt_of_le_of_ne (pymax_ge _ hmem) hnemax
    · intro e2
      refine ⟨mul_nonneg (ratioQ_nonneg _ _) (ratioQ_nonneg _ _),
        mul_le_one₀ (ratioQ_le_one _ _) (ratioQ_nonneg _ _) (ratioQ_le_one _ _),
        ratioQ_nonneg _ _, ratioQ_le_one _ _,
        ratioQ_nonneg _ _, ratioQ_le_one _ _⟩
    · intro e2 h
      unfold combinedScore
      rw [h, mul_zero]

/-- Witness for the amended C1 at a singleton entry list. -/
theorem C1_matcher_amended_witness :
    MatcherSpec ["x".data] ["ab".data] [⟨"x".data, "ab".data, "u"⟩] :=
  C1_matcher_amended ["x".data] ["ab".data] [⟨"x".data, "ab".data, "u"⟩]
    (by decide)

/-- Counterexample to C1 as stated: the code space-strips the entry
*author* text too, so both entries tie at combined score 1 and the matcher
returns the first (`c1e0`); but under the claim's score — author
similarity computed on the raw author text — the returned entry scores
4/5 while the other scores 1, so the matcher does not return an entry of
maximal claim-score. -/
theorem C1_matcher_counterexample :
    parseSearchResults ["x".data] ["ab".data] [c1e0, c1e1] = some c1e0 ∧
      claimCombinedScore ["x".data] ["ab".data] c1e0 <
        claimCombinedScore ["x".data] ["ab".data] c1e1 := by
  have hx : ratioQ "x".data "x".data = 1 := by
    unfold ratioQ calcRatioQ
    rw [show matchTotal "x".data "x".data = 1 from by decide]
    norm_num
  have hab : ratioQ "ab".data "ab".data = 1 := by
    unfold ratioQ calcRatioQ
    rw [show matchTotal "ab".data "ab".data = 2 from by decide]
    norm_num
  have hasp : ratioQ "a b".data "ab".data = 4 / 5 := by
    unfold ratioQ calcRatioQ
    rw [show matchTotal "a b".data "ab".data = 2 from by decide]
    norm_num
  have hs0 : combinedScore ["x".data] ["ab".data] c1e0 = 1 := by
    unfold combinedScore titleSimOf authorSimOf
    rw [show stripSpaces c1e0.title = "x".data from by decide,
      show joinStrs [("x".data : Str)] = "x".data from by decide,
      show stripSpaces c1e0.author = "ab".data from by decide,
      show joinStrs [("ab".data : Str)] = "ab".data from by decide,
      hx, hab]
    norm_num
  have hs1 : combinedScore ["x".data] ["ab".data] c1e1 = 1 := by
    unfold combinedScore titleSimOf authorSimOf
    rw [show stripSpaces c1e1.title = "x".data from by decide,
      show joinStrs [("x".data : Str)] = "x".data from by decide,
      show stripSpaces c1e1.author = "ab".data from by decide,
      show joinStrs [("ab".data : Str)] = "ab".data from by decide,
      hx, hab]
    norm_num
  constructor
  · have hps : parseSearchResults ["x".data] ["ab".data] [c1e0, c1e1] =
        [c1e0, c1e1][pyIndex
          (pymax ([c1e0, c1e1].map (combinedScore ["x".data] ["ab".data])))
          ([c1e0, c1e1].map (combinedScore ["x".data] ["ab".data]))]? := rfl
    rw [hps]
    rw [show [c1e0, c1e1].map (combinedScore ["x".data] ["ab".data]) =
      [combinedScore ["x".data] ["ab".data] c1e0,
        combinedScore ["x".data] ["ab".data] c1e1] from rfl]
    rw [hs0, hs1]
    rw [show pymax [(1 : ℚ), 1] = 1 from by norm_num [pymax]]
    rw [show pyIndex (1 : ℚ) [(1 : ℚ), 1] = 0 from by norm_num [pyIndex]]
    rfl
  · have hc0 : claimCombinedScore ["x".data] ["ab".data] c1e0 = 4 / 5 := by
      unfold claimCombinedScore claimAuthorSim titleSimOf
      rw [show stripSpaces c1e0.title = "x".data from by decide,
        show joinStrs [("x".data : Str)] = "x".data from by decide,
        show c1e0.author = "a b".data from rfl,
        show joinStrs [("ab".data : Str)] = "ab".data from by decide,
        hx, hasp]
      norm_num
    have hc1 : claimCombinedScore ["x".data] ["ab".data] c1e1 = 1 := by
      unfold claimCombinedScore claimAuthorSim titleSimOf
      rw [show stripSpaces c1e1.title = "x".data from by decide,
        show joinStrs [("x".data : Str)] = "x".data from by decide,
        show c1e1.author = "ab".data from rfl,
        show joinStrs [("ab".data : Str)] = "ab".data from by decide,
        hx, hab]
      norm_num
    rw [hc0, hc1]
    norm_num
